import Mathlib

/-!
A shallow embedding of the Go package `pkg/tesseract` of gotesseract.

The package shells out to the `tesseract` binary.  Everything the operating
system decides (does a path exist, what does a subprocess print, how does it
exit) is read from an environment record `Env`; everything the package does to
the outside world is appended to the `trace` of a `World`, which also holds the
package-level variable `TesseractCmd`.

Go strings are modelled as Lean strings (sequences of Unicode code points);
byte lengths, where Go's library depends on them, are the UTF-8 lengths.
-/

namespace Tesseract

/-! ## Go library functions used by the package -/

/-- Go `unicode.IsSpace`: the Latin-1 cases spelled out in the library, then the
`White_Space` range table. -/
def unicode.IsSpace (c : Char) : Bool :=
  let r := c.toNat
  if r ≤ 0xFF then
    r == 0x09 || r == 0x0A || r == 0x0B || r == 0x0C || r == 0x0D || r == 0x20 ||
      r == 0x85 || r == 0xA0
  else
    r == 0x1680 || (0x2000 ≤ r && r ≤ 0x200A) || r == 0x2028 || r == 0x2029 ||
      r == 0x202F || r == 0x205F || r == 0x3000

/-- Characters of `strings.TrimSpace`: the leading run of white space is cut,
then the trailing run. -/
def trimSpaceChars (l : List Char) : List Char :=
  ((l.dropWhile unicode.IsSpace).reverse.dropWhile unicode.IsSpace).reverse

/-- Go `strings.TrimSpace`. -/
def strings.TrimSpace (s : String) : String :=
  String.mk (trimSpaceChars s.data)

/-- Pieces of a character list between occurrences of the one-character
separator `sep`; the worker of `strings.Split`.  `cur` is the piece being read,
reversed. -/
def splitAux (sep : Char) : List Char → List Char → List (List Char)
  | [], cur => [cur.reverse]
  | c :: cs, cur =>
    if c = sep then cur.reverse :: splitAux sep cs [] else splitAux sep cs (c :: cur)

/-- Go `strings.Split(s, sep)` for a separator of one character (the package
only splits on a newline and on a tab).  An empty `s` gives one empty piece. -/
def strings.Split (s : String) (sep : Char) : List String :=
  (splitAux sep s.data []).map String.mk

/-- Worker of `strings.Fields`: `cur` is the field being read, reversed. -/
def fieldsAux : List Char → List Char → List (List Char)
  | [], cur => if cur.isEmpty then [] else [cur.reverse]
  | c :: cs, cur =>
    if unicode.IsSpace c then
      (if cur.isEmpty then fieldsAux cs [] else cur.reverse :: fieldsAux cs [])
    else fieldsAux cs (c :: cur)

/-- Go `strings.Fields`: the maximal runs of characters that are not white
space. -/
def strings.Fields (s : String) : List String :=
  (fieldsAux s.data []).map String.mk

/-- The verb `%d` of `fmt.Sprintf` on an `int`: decimal digits, a minus sign in
front of a negative number. -/
def fmtInt (i : Int) : String :=
  match i with
  | Int.ofNat n => String.mk (Nat.toDigits 10 n)
  | Int.negSucc n => "-" ++ String.mk (Nat.toDigits 10 (n + 1))

/-- Number of bytes of the UTF-8 encoding of a character. -/
def utf8Len (c : Char) : Nat :=
  if c.toNat < 0x80 then 1 else if c.toNat < 0x800 then 2 else if c.toNat < 0x10000 then 3 else 4

/-- Go `len(s)`: the number of bytes of a string. -/
def byteLen (l : List Char) : Nat :=
  (l.map utf8Len).sum

/-- `\d` of Go's `regexp`, and the digit test of `strconv`: an ASCII digit. -/
def isDigit (c : Char) : Bool :=
  decide ('0'.toNat ≤ c.toNat) && decide (c.toNat ≤ '9'.toNat)

/-- The two kinds of `*strconv.NumError`. -/
inductive NumErr where
  | ErrSyntax
  | ErrRange
  deriving DecidableEq, Repr

/-- Largest `uint64`. -/
def maxUint64 : Nat := 2 ^ 64 - 1

/-- The digit loop of `strconv.ParseUint(s, 10, 64)`, `n` being the `uint64`
read so far.  A character that is not a digit ends it with a syntax error and
0; a number that leaves `uint64` ends it with a range error and the largest
`uint64`; whichever comes first. -/
def parseUintLoop : List Char → Nat → Nat × Option NumErr
  | [], n => (n, none)
  | c :: cs, n =>
    if isDigit c then
      let d := c.toNat - '0'.toNat
      if n ≥ maxUint64 / 10 + 1 then (maxUint64, some .ErrRange)
      else
        let n10 := n * 10
        let n1 := (n10 + d) % 2 ^ 64
        if n1 < n10 ∨ n1 > maxUint64 then (maxUint64, some .ErrRange)
        else parseUintLoop cs n1
    else (0, some .ErrSyntax)

/-- Go `strconv.ParseUint(s, 10, 64)`. -/
def strconv.ParseUint (s : List Char) : Nat × Option NumErr :=
  if s = [] then (0, some .ErrSyntax) else parseUintLoop s 0

/-- Go `strconv.ParseInt(s, 10, 0)` where `int` has 64 bits. -/
def strconv.ParseInt (s : List Char) : Int × Option NumErr :=
  match s with
  | [] => (0, some .ErrSyntax)
  | c :: rest =>
    let neg := decide (c = '-')
    let body := if c = '+' ∨ c = '-' then rest else s
    let r := strconv.ParseUint body
    if r.2 = some .ErrSyntax then (0, some .ErrSyntax)
    else
      let cutoff : Nat := 2 ^ 63
      if !neg && decide (r.1 ≥ cutoff) then (((cutoff - 1 : Nat) : Int), some .ErrRange)
      else if neg && decide (r.1 > cutoff) then (-(cutoff : Int), some .ErrRange)
      else (if neg then -(r.1 : Int) else (r.1 : Int), none)

/-- The digit loop of the fast path of `strconv.Atoi`. -/
def atoiFastLoop : List Char → Int → Int × Option NumErr
  | [], n => (n, none)
  | c :: cs, n =>
    if isDigit c then atoiFastLoop cs (n * 10 + ((c.toNat - '0'.toNat : Nat) : Int))
    else (0, some .ErrSyntax)

/-- Go `strconv.Atoi` where `int` has 64 bits: a fast path for strings of 1 to
18 bytes, `ParseInt(s, 10, 0)` for the others. -/
def strconv.Atoi (s : String) : Int × Option NumErr :=
  let sLen := byteLen s.data
  if 0 < sLen ∧ sLen < 19 then
    match s.data with
    | [] => (0, some .ErrSyntax)
    | c :: rest =>
      let body := if c = '-' ∨ c = '+' then rest else s.data
      if (c = '-' ∨ c = '+') ∧ body.length < 1 then (0, some .ErrSyntax)
      else
        let r := atoiFastLoop body 0
        if r.2 = some .ErrSyntax then (0, some .ErrSyntax)
        else (if c = '-' then -r.1 else r.1, none)
  else strconv.ParseInt s.data

/-- `bufio.MaxScanTokenSize`: the largest buffer a `bufio.Scanner` allocates. -/
def MaxScanTokenSize : Nat := 64 * 1024

/-- The `dropCR` of `bufio.ScanLines`: one trailing carriage return is cut. -/
def dropCR (l : List Char) : List Char :=
  if l.getLast? = some '\r' then l.dropLast else l

/-- The tokens a `bufio.Scanner` with `bufio.ScanLines` yields on a content, and
whether it stopped with `bufio.ErrTooLong`.  `cur` is the line being read,
reversed.  A line is found when its newline (or the end of the content) is
reached with the line inside the buffer; a line of `MaxScanTokenSize` bytes or
more fills the buffer first and ends the scan.  An empty last line is not a
token. -/
def scanLinesAux : List Char → List Char → List (List Char) × Bool
  | [], cur =>
    if cur.isEmpty then ([], false)
    else if byteLen cur ≥ MaxScanTokenSize then ([], true)
    else ([dropCR cur.reverse], false)
  | c :: cs, cur =>
    if c = '\n' then
      if byteLen cur ≥ MaxScanTokenSize then ([], true)
      else
        let r := scanLinesAux cs []
        (dropCR cur.reverse :: r.1, r.2)
    else scanLinesAux cs (c :: cur)

/-- Go `<` on strings holding valid UTF-8: lexicographic order of the bytes,
which is the lexicographic order of the code points. -/
def strLt : List Char → List Char → Bool
  | [], [] => false
  | [], _ :: _ => true
  | _ :: _, [] => false
  | a :: as, b :: bs => decide (a.toNat < b.toNat) || (decide (a = b) && strLt as bs)

/-- `\s` of Go's `regexp`: tab, newline, form feed, carriage return, space. -/
def isReSpace (c : Char) : Bool :=
  c.toNat == 0x09 || c.toNat == 0x0A || c.toNat == 0x0C || c.toNat == 0x0D || c.toNat == 0x20

/-- Cut a literal from the front of a character list. -/
def stripLit : List Char → List Char → Option (List Char)
  | [], l => some l
  | _ :: _, [] => none
  | p :: ps, c :: cs => if p = c then stripLit ps cs else none

/-- A match of `tesseract\s+v?(\d+)\.(\d+)\.(\d+)(?:\.\d+)?` that begins at the
front of `l`: the first two submatches.  Every repetition is followed by a
character outside its class, so the greedy choice is the only one that can
succeed, and the last optional group changes no submatch. -/
def matchVersionHere (l : List Char) : Option (List Char × List Char) :=
  match stripLit "tesseract".data l with
  | none => none
  | some r1 =>
    if (r1.takeWhile isReSpace).isEmpty then none
    else
      let r2 := r1.dropWhile isReSpace
      let r3 := match r2 with
        | 'v' :: t => t
        | _ => r2
      let major := r3.takeWhile isDigit
      if major.isEmpty then none
      else
        match r3.dropWhile isDigit with
        | '.' :: r4 =>
          let minor := r4.takeWhile isDigit
          if minor.isEmpty then none
          else
            match r4.dropWhile isDigit with
            | '.' :: r5 => if (r5.takeWhile isDigit).isEmpty then none else some (major, minor)
            | _ => none
        | _ => none

/-- Go `versionRegex.FindStringSubmatch`: the submatches of the leftmost match,
`none` when there is no match. -/
def findVersion : List Char → Option (List Char × List Char)
  | [] => matchVersionHere []
  | c :: cs =>
    match matchVersionHere (c :: cs) with
    | some m => some m
    | none => findVersion cs

/-- Go `bytes.ReplaceAll(out, "\r\n", "\n")`. -/
def replaceCRLF : List Char → List Char
  | [] => []
  | [c] => [c]
  | c :: d :: cs =>
    if c = '\r' ∧ d = '\n' then '\n' :: replaceCRLF cs else c :: replaceCRLF (d :: cs)

/-- Go `strings.Contains(s, "\r\n")`. -/
def containsCRLF : List Char → Bool
  | [] => false
  | [_] => false
  | c :: d :: cs => (decide (c = '\r') && decide (d = '\n')) || containsCRLF (d :: cs)

/-! ## errors.go -/

/-- OCRError represents a Tesseract process error with exit code and stderr
output. -/
structure OCRError where
  Code : Int
  Stderr : String
  deriving DecidableEq, Repr

/-- Go `(*OCRError).Error`. -/
def OCRError.Error (e : OCRError) : String :=
  let msg := strings.TrimSpace e.Stderr
  let msg := if msg = "" then "unknown error" else msg
  "tesseract error (code " ++ fmtInt e.Code ++ "): " ++ msg

/-- Values of Go's `error` interface that this package can hand out.  The nine
package-level variables are distinct objects and `==` on errors is identity, so
each is its own constructor.  `new` is a fresh `errors.New`/`fmt.Errorf` value,
`wrap` a `fmt.Errorf` with the verb `%w` (text, wrapped error), `ocr` an
`*OCRError`, and `external` an error produced by the Go library or the
operating system. -/
inductive Err where
  | ErrTesseractNotFound
  | ErrInvalidImage
  | ErrProcessTimeout
  | ErrLanguageNotFound
  | ErrUnsupportedFormat
  | ErrInvalidConfig
  | ErrEmptyOutput
  | ErrInvalidOutput
  | ErrUnsupportedExtension
  | new (msg : String)
  | wrap (msg : String) (inner : Err)
  | ocr (e : OCRError)
  | external (msg : String)
  deriving DecidableEq, Repr

/-- The text of an error (`err.Error()`). -/
def Err.Error : Err → String
  | .ErrTesseractNotFound => "tesseract is not installed or not in PATH"
  | .ErrInvalidImage => "invalid or unsupported image format"
  | .ErrProcessTimeout => "OCR process timeout"
  | .ErrLanguageNotFound => "specified language data not found"
  | .ErrUnsupportedFormat => "unsupported image format"
  | .ErrInvalidConfig => "invalid Tesseract config"
  | .ErrEmptyOutput => "OCR produced no output"
  | .ErrInvalidOutput => "invalid OCR output"
  | .ErrUnsupportedExtension => "unsupported output extension"
  | .new msg => msg
  | .wrap msg _ => msg
  | .ocr e => e.Error
  | .external msg => msg

/-- Go `errors.Is`: the target is found by identity somewhere along the chain of
wrapped errors. -/
def errorsIs : Err → Err → Bool
  | .wrap msg inner, target =>
    decide (Err.wrap msg inner = target) || errorsIs inner target
  | e, target => decide (e = target)

/-- Whether an error is one of the package-level error variables. -/
def Err.isSentinel : Err → Bool
  | .new _ => false
  | .wrap _ _ => false
  | .ocr _ => false
  | .external _ => false
  | _ => true

/-- IsTimeout returns true if the error indicates a timeout. -/
def IsTimeout (err : Option Err) : Bool :=
  decide (err = some Err.ErrProcessTimeout)

/-- IsNotFound returns true if the error indicates Tesseract is not installed. -/
def IsNotFound (err : Option Err) : Bool :=
  decide (err = some Err.ErrTesseractNotFound)

/-! ## The outside world -/

/-- A decoded image (`image.Image`); a nil interface value is `none` of
`Option Image`. -/
structure Image where
  width : Nat
  height : Nat
  pixels : List Nat
  deriving DecidableEq, Repr

/-- How a started subprocess ended, as `os/exec` sees it. -/
inductive ProcOutcome where
  /-- The process ran to its end: exit code, captured stdout and stderr. -/
  | exited (code : Nat) (stdout stderr : String)
  /-- The process was killed by a signal; `exec.CommandContext` does this when
  the deadline of its context expires.  `ExitCode()` is then `-1`. -/
  | killed (stdout stderr : String)
  /-- The process could not be started or waited for (the error text). -/
  | failed (msg : String)
  deriving DecidableEq, Repr

/-- What the package does to the outside world, in order. -/
inductive Event where
  | stat (path : String)
  | lookPath (file : String)
  | mkdirTemp
  | createFile (path : String)
  | writeFile (path : String)
  | readFile (path : String)
  | openFile (path : String)
  | removeAll (path : String)
  | exec (cmd : String) (args : List String)
  deriving DecidableEq, Repr

/-- Answers of the operating system.  `mkdirTemp n` answers the call of
`os.MkdirTemp` made after `n` earlier ones; `subprocess cmd args deadline`
answers running `cmd` with `args` under an optional deadline. -/
structure Env where
  statOk : String → Bool
  lookPath : String → Option String
  mkdirTemp : Nat → Except String String
  createFile : String → Option String
  pngEncode : Image → Option String
  writeFile : String → Option String
  readFile : String → Except String String
  versionOutput : String → Except String String
  subprocess : String → List String → Option Int → ProcOutcome

/-- The mutable state: the package variable `TesseractCmd` and the record of
what has been done so far. -/
structure World where
  TesseractCmd : String
  trace : List Event
  deriving DecidableEq, Repr

/-- Append an event to the record. -/
def World.emit (w : World) (e : Event) : World :=
  { w with trace := w.trace ++ [e] }

/-- What a Go function hands back: its value and its error (`none` is nil), or a
run-time panic. -/
inductive Ret (α : Type) where
  | ret (val : α) (err : Option Err)
  | panic (msg : String)
  deriving DecidableEq, Repr

/-- The error a call returned; a panic returns nothing. -/
def Ret.err {α : Type} : Ret α → Option Err
  | .ret _ e => e
  | .panic _ => none

/-- A `context.Context`: `none` is `context.Background()`, `some d` carries the
deadline `d` (nanoseconds). -/
abbrev Context := Option Int

/-- Go `(*exec.Cmd).Output`: stdout on success; an `*exec.ExitError` (exit code,
captured stderr) when the process started and did not exit with 0; another
error otherwise. -/
inductive OutputResult where
  | ok (stdout : String)
  | exitError (code : Int) (stderr : String)
  | other (msg : String)
  deriving DecidableEq, Repr

/-- Reading a `ProcOutcome` the way `cmd.Output()` reports it. -/
def cmdOutput : ProcOutcome → OutputResult
  | .exited 0 out _ => .ok out
  | .exited (n + 1) _ err => .exitError (↑(n + 1)) err
  | .killed _ err => .exitError (-1) err
  | .failed msg => .other msg

/-- Go `filepath.Join(dir, name)` for a clean directory path and a plain file
name, on a system whose separator is the slash. -/
def filepathJoin (dir name : String) : String :=
  dir ++ "/" ++ name

/-- Go `filepath.IsAbs` on a system whose separator is the slash. -/
def filepathIsAbs (path : String) : Bool :=
  path.data.head? == some '/'

/-! ## config.go -/

/-- OutputType defines the available OCR output formats (`type OutputType int`). -/
abbrev OutputType := Int

/-- OutputString returns OCR result as string. -/
def OutputString : OutputType := 0

/-- OutputBytes returns raw OCR output bytes. -/
def OutputBytes : OutputType := 1

/-- OutputDict returns OCR result as key-value pairs. -/
def OutputDict : OutputType := 2

/-- Config holds the configuration options for Tesseract OCR operations. -/
structure Config where
  TesseractPath : String
  Language : String
  ConfigFile : String
  Timeout : Int
  Nice : Int
  OutputType : OutputType
  deriving DecidableEq, Repr

/-- SetTesseractCmd sets the path to the Tesseract executable. -/
def SetTesseractCmd (env : Env) (cmd : String) (w : World) : Option Err × World :=
  let w1 := w.emit (.stat cmd)
  if env.statOk cmd then
    (none, { w1 with TesseractCmd := cmd })
  else if !filepathIsAbs cmd then
    let w2 := w1.emit (.lookPath cmd)
    match env.lookPath cmd with
    | some path => (none, { w2 with TesseractCmd := path })
    | none => (some (.new "tesseract binary not found"), w2)
  else
    (some (.new "tesseract binary not found"), w1)

/-! ## utils.go -/

/-- The part of `checkVersion` after the command has run: `out` is the combined
output of `tesseract --version`.  `strings.SplitN(out, "\n", 2)[0]` is the first
piece of the split on newlines. -/
def checkVersionOutput (out : String) : Option Err :=
  let firstLine := (splitAux '\n' out.data []).headD []
  match findVersion firstLine with
  | none =>
    some (.new ("unrecognized tesseract version format: " ++ String.mk firstLine))
  | some (major, minor) =>
    if strLt major "3".data || (decide (major = "3".data) && strLt minor "05".data) then
      some (.new ("tesseract version " ++ String.mk major ++ "." ++ String.mk minor ++
        " is not supported (minimum 3.05 required)"))
    else none

/-- Go `checkVersion`.  `env.versionOutput cmd` is what
`exec.Command(cmd, "--version").CombinedOutput()` gives. -/
def checkVersion (env : Env) (w : World) : Option Err × World :=
  let w1 := w.emit (.exec w.TesseractCmd ["--version"])
  match env.versionOutput w.TesseractCmd with
  | .error msg => (some (.wrap ("failed to get tesseract version: " ++ msg) (.external msg)), w1)
  | .ok out => (checkVersionOutput out, w1)

/-- Number of calls of `os.MkdirTemp` recorded so far. -/
def mkdirCount (w : World) : Nat :=
  w.trace.count Event.mkdirTemp

/-- Go `createTempDir`. -/
def createTempDir (env : Env) (w : World) : Except Err String × World :=
  let w1 := w.emit .mkdirTemp
  match env.mkdirTemp (mkdirCount w) with
  | .error msg =>
    (.error (.wrap ("failed to create temp directory: " ++ msg) (.external msg)), w1)
  | .ok dir => (.ok dir, w1)

/-- Go `saveImage`.  `png.Encode` calls `img.Bounds()` first, which panics on a
nil image. -/
def saveImage (env : Env) (dir : String) (img : Option Image) (w : World) :
    Ret String × World :=
  let outPath := filepathJoin dir "input.png"
  let w1 := w.emit (.createFile outPath)
  match env.createFile outPath with
  | some msg => (.ret "" (some (.external msg)), w1)
  | none =>
    match img with
    | none => (.panic "invalid memory address or nil pointer dereference", w1)
    | some im =>
      match env.pngEncode im with
      | some msg => (.ret "" (some (.external msg)), w1)
      | none =>
        let w2 := w1.emit (.writeFile outPath)
        match env.writeFile outPath with
        | some msg => (.ret "" (some (.external msg)), w2)
        | none => (.ret outPath none, w2)

/-- The part of `GetAvailableLanguages` after the command has succeeded. -/
def parseLanguages (out : String) : List String :=
  let out := if containsCRLF out.data then String.mk (replaceCRLF out.data) else out
  let langs := strings.Split out '\n'
  (langs.drop 1).filter (fun l => decide (byteLen l.data > 0))

/-- Go `GetAvailableLanguages`. -/
def GetAvailableLanguages (env : Env) (w : World) : Except Err (List String) × World :=
  let w1 := w.emit (.exec w.TesseractCmd ["--list-langs"])
  match cmdOutput (env.subprocess w.TesseractCmd ["--list-langs"] none) with
  | .ok out => (.ok (parseLanguages out), w1)
  | _ => (.error .ErrTesseractNotFound, w1)

/-- Go `runOCR`. -/
def runOCR (env : Env) (ctx : Context) (img : Option Image) (lang : String)
    (args : List String) (w : World) : Ret String × World :=
  match createTempDir env w with
  | (.error e, w1) => (.ret "" (some e), w1)
  | (.ok tmpDir, w1) =>
    let r : Ret String × World :=
      match saveImage env tmpDir img w1 with
      | (.panic m, w2) => (.panic m, w2)
      | (.ret _ (some e), w2) => (.ret "" (some e), w2)
      | (.ret imgPath none, w2) =>
        let cmdArgs := [imgPath] ++ args
        let cmdArgs := if lang ≠ "" then cmdArgs ++ ["-l", lang] else cmdArgs
        let w3 := w2.emit (.exec w2.TesseractCmd cmdArgs)
        match cmdOutput (env.subprocess w2.TesseractCmd cmdArgs ctx) with
        | .ok out => (.ret out none, w3)
        | .exitError code stderr => (.ret "" (some (.ocr { Code := code, Stderr := stderr })), w3)
        | .other msg => (.ret "" (some (.external msg)), w3)
    (r.1, r.2.emit (.removeAll tmpDir))

/-- Go `validateImageFormat`. -/
def validateImageFormat (img : Option Image) : Option Err :=
  match img with
  | none => some (.new "nil image")
  | some _ => none

/-- Go `validateLanguage`. -/
def validateLanguage (env : Env) (lang : String) (w : World) : Option Err × World :=
  match GetAvailableLanguages env w with
  | (.error e, w1) => (some e, w1)
  | (.ok langs, w1) => (if langs.any (fun l => decide (l = lang)) then none
      else some .ErrLanguageNotFound, w1)

/-! ## output.go -/

/-- A Go `map[string][]string`: keys with their values, each key once. -/
abbrev Table := List (String × List String)

/-- Reading `m[k]`; a missing key reads as the nil slice. -/
def Table.get (m : Table) (k : String) : List String :=
  (m.lookup k).getD []

/-- The assignment `m[k] = v`. -/
def Table.set : Table → String → List String → Table
  | [], k, v => [(k, v)]
  | (k0, v0) :: m, k, v => if k0 = k then (k, v) :: m else (k0, v0) :: Table.set m k v

/-- The inner loop of `parseTSV` over the columns of one row, from column `i`. -/
def parseTSVRow (headers : List String) : List String → Nat → Table → Table
  | [], _, result => result
  | col :: cols, i, result =>
    let result := if h : i < headers.length then
        result.set (headers.get ⟨i, h⟩) (result.get (headers.get ⟨i, h⟩) ++ [col])
      else result
    parseTSVRow headers cols (i + 1) result

/-- Go `parseTSV`. -/
def parseTSV (data : String) : Table :=
  let rows := strings.Split (strings.TrimSpace data) '\n'
  if rows.length < 2 then []
  else
    let headers := strings.Split (rows.headD "") '\t'
    let result := headers.foldl (fun (m : Table) header => m.set header []) []
    (rows.drop 1).foldl
      (fun (m : Table) row => parseTSVRow headers (strings.Split row '\t') 0 m) result

/-- The header names `parseTSV` reads: the first line of the trimmed input,
split on tabs. -/
def tsvHeaders (data : String) : List String :=
  strings.Split ((strings.Split (strings.TrimSpace data) '\n').headD "") '\t'

/-- The data rows `parseTSV` reads: the lines of the trimmed input after the
first. -/
def tsvRows (data : String) : List String :=
  (strings.Split (strings.TrimSpace data) '\n').drop 1

/-! ## client.go -/

/-- Client manages Tesseract OCR operations. -/
structure Client where
  config : Config
  deriving DecidableEq, Repr

/-- NewClient creates a new Tesseract client with the given configuration. -/
def NewClient (env : Env) (cfg : Config) (w : World) : (Option Client × Option Err) × World :=
  let r := if cfg.TesseractPath ≠ "" then SetTesseractCmd env cfg.TesseractPath w else (none, w)
  match r with
  | (some e, w1) => ((none, some e), w1)
  | (none, w1) =>
    match checkVersion env w1 with
    | (some e, w2) => ((none, some e), w2)
    | (none, w2) => ((some { config := cfg }, none), w2)

/-- The context every operation of a client builds:
`context.WithTimeout(context.Background(), Timeout)` when `Timeout > 0`. -/
def Client.context (c : Client) : Context :=
  if c.config.Timeout > 0 then some c.config.Timeout else none

/-- ImageToString performs OCR on an image and returns the extracted text. -/
def Client.ImageToString (env : Env) (c : Client) (img : Option Image) (lang : String)
    (w : World) : Ret String × World :=
  match validateImageFormat img with
  | some e => (.ret "" (some e), w)
  | none =>
    match runOCR env c.context img lang ["stdout"] w with
    | (.panic m, w1) => (.panic m, w1)
    | (.ret _ (some e), w1) => (.ret "" (some e), w1)
    | (.ret out none, w1) => (.ret out none, w1)

/-- A value of type `interface{}` returned by `ImageToOutput`. -/
inductive OutVal where
  | nil
  | str (s : String)
  | bytes (b : String)
  | dict (m : Table)
  deriving DecidableEq, Repr

/-- ImageToOutput performs OCR and returns the result in the specified format. -/
def Client.ImageToOutput (env : Env) (c : Client) (img : Option Image) (lang : String)
    (outputType : OutputType) (w : World) : Ret OutVal × World :=
  match validateImageFormat img with
  | some e => (.ret (.str "") (some e), w)
  | none =>
    match runOCR env c.context img lang ["stdout"] w with
    | (.panic m, w1) => (.panic m, w1)
    | (.ret _ (some e), w1) => (.ret .nil (some e), w1)
    | (.ret out none, w1) =>
      if outputType = OutputString then (.ret (.str out) none, w1)
      else if outputType = OutputBytes then (.ret (.bytes out) none, w1)
      else if outputType = OutputDict then (.ret (.dict (parseTSV out)) none, w1)
      else (.ret .nil (some (.new "unsupported output type")), w1)

/-- ImageToFile performs OCR and saves the result to the specified file. -/
def Client.ImageToFile (env : Env) (c : Client) (img : Option Image) (lang outputFile : String)
    (w : World) : Ret Unit × World :=
  match validateImageFormat img with
  | some e => (.ret () (some e), w)
  | none =>
    match runOCR env c.context img lang [outputFile] w with
    | (.panic m, w1) => (.panic m, w1)
    | (.ret _ err, w1) => (.ret () err, w1)

/-! ## extensions.go -/

/-- SupportedExtension represents a supported output format and its
configuration. -/
structure SupportedExtension where
  config : String
  version : String
  deriving DecidableEq, Repr

/-- Supported Tesseract output extensions and their configurations (the map
`supportedExtensions`, read at a key). -/
def supportedExtensions (extension : String) : Option SupportedExtension :=
  if extension = "hocr" then some { config := "tessedit_create_hocr=1", version := "3.05" }
  else if extension = "xml" then some { config := "tessedit_create_alto=1", version := "4.1.0" }
  else if extension = "tsv" then some { config := "tessedit_create_tsv=1", version := "3.05" }
  else if extension = "pdf" then some { config := "tessedit_create_pdf=1", version := "3.05" }
  else none

/-- ImageToExtension performs OCR and returns output in specified format. -/
def Client.ImageToExtension (env : Env) (c : Client) (img : Option Image)
    (lang extension : String) (w : World) : Ret String × World :=
  match validateImageFormat img with
  | some e => (.ret "" (some e), w)
  | none =>
    match supportedExtensions extension with
    | none =>
      (.ret "" (some (.wrap (Err.ErrUnsupportedExtension.Error ++ ": " ++ extension)
        .ErrUnsupportedExtension)), w)
    | some extConfig =>
      let ctx := c.context
      match createTempDir env w with
      | (.error e, w1) => (.ret "" (some e), w1)
      | (.ok tmpDir, w1) =>
        let outBase := filepathJoin tmpDir "output"
        let args := [outBase]
        let r : Ret String × World :=
          match (if lang ≠ "" then validateLanguage env lang w1 else (none, w1)) with
          | (some e, w2) => (.ret "" (some e), w2)
          | (none, w2) =>
            let args := if lang ≠ "" then args ++ ["-l", lang] else args
            let args := args ++ ["-c", extConfig.config]
            match runOCR env ctx img lang args w2 with
            | (.panic m, w3) => (.panic m, w3)
            | (.ret _ (some e), w3) => (.ret "" (some e), w3)
            | (.ret _ none, w3) =>
              let outputFile := outBase ++ "." ++ extension
              let w4 := w3.emit (.readFile outputFile)
              match env.readFile outputFile with
              | .error msg =>
                (.ret "" (some (.wrap ("failed to read output file: " ++ msg) (.external msg))), w4)
              | .ok output => (.ret output none, w4)
        (r.1, r.2.emit (.removeAll tmpDir))

/-! ## boxes.go -/

/-- One character with its bounding box and page. -/
structure Box where
  Char : Char
  Left : Int
  Bottom : Int
  Right : Int
  Top : Int
  Page : Int
  deriving DecidableEq, Repr

/-- The body of the scanning loop of `parseBoxFile` for one line: `none` when
the line is skipped, otherwise the box, or a panic when `[]rune(fields[0])[0]`
is out of range. -/
def parseBoxLine (line : String) : Option (Ret Box) :=
  match strings.Fields line with
  | [f0, f1, f2, f3, f4, f5] =>
    match f0.data with
    | [] => some (.panic "index out of range [0] with length 0")
    | char :: _ =>
      some (.ret { Char := char, Left := (strconv.Atoi f1).1, Bottom := (strconv.Atoi f2).1,
                   Right := (strconv.Atoi f3).1, Top := (strconv.Atoi f4).1,
                   Page := (strconv.Atoi f5).1 } none)
  | _ => none

/-- The scanning loop of `parseBoxFile` over the lines the scanner yields,
`boxes` being the slice built so far. -/
def parseBoxLoop : List String → List Box → Ret (List Box)
  | [], boxes => .ret boxes none
  | line :: lines, boxes =>
    match parseBoxLine line with
    | none => parseBoxLoop lines boxes
    | some (.panic m) => .panic m
    | some (.ret b _) => parseBoxLoop lines (boxes ++ [b])

/-- The part of `parseBoxFile` after the file is open, on the content of the
file: the loop, then `scanner.Err()` as the error. -/
def parseBoxContent (content : String) : Ret (List Box) :=
  let sc := scanLinesAux content.data []
  match parseBoxLoop (sc.1.map String.mk) [] with
  | .panic m => .panic m
  | .ret boxes _ =>
    .ret boxes (if sc.2 then some (.external "bufio.Scanner: token too long") else none)

/-- Go `parseBoxFile`. -/
def parseBoxFile (env : Env) (filename : String) (w : World) : Ret (List Box) × World :=
  let w1 := w.emit (.openFile filename)
  match env.readFile filename with
  | .error msg => (.ret [] (some (.external msg)), w1)
  | .ok content => (parseBoxContent content, w1)

/-- Reading a `ProcOutcome` the way `cmd.Run()` reports it: nil, or the text of
the error. -/
def cmdRun : ProcOutcome → Option String
  | .exited 0 _ _ => none
  | .exited (n + 1) _ _ => some ("exit status " ++ fmtInt (↑(n + 1)))
  | .killed _ _ => some "signal: killed"
  | .failed msg => some msg

/-- Go `(*Client).ImageToBoxes`. -/
def Client.ImageToBoxes (env : Env) (c : Client) (img : Option Image) (lang : String)
    (w : World) : Ret (List Box) × World :=
  match createTempDir env w with
  | (.error e, w1) => (.ret [] (some e), w1)
  | (.ok tmpDir, w1) =>
    let r : Ret (List Box) × World :=
      match saveImage env tmpDir img w1 with
      | (.panic m, w2) => (.panic m, w2)
      | (.ret _ (some e), w2) => (.ret [] (some e), w2)
      | (.ret imgPath none, w2) =>
        let outBase := filepathJoin tmpDir "output"
        let args := [imgPath, outBase, "-c", "tessedit_create_boxfile=1", "batch.nochop", "makebox"]
        match (if lang ≠ "" then validateLanguage env lang w2 else (none, w2)) with
        | (some e, w3) => (.ret [] (some e), w3)
        | (none, w3) =>
          let args := if lang ≠ "" then args ++ ["-l", lang] else args
          let ctx := c.context
          let w4 := w3.emit (.exec w3.TesseractCmd args)
          match cmdRun (env.subprocess w3.TesseractCmd args ctx) with
          | some msg => (.ret [] (some (.wrap ("tesseract error: " ++ msg) (.external msg))), w4)
          | none => parseBoxFile env (outBase ++ ".box") w4
    (r.1, r.2.emit (.removeAll tmpDir))

/-! ## Numerals, boxes and lines in the words of the specification -/

/-- The number a run of decimal digits denotes, read from the left. -/
def decimalValue (l : List Char) : Nat :=
  l.foldl (fun n c => n * 10 + (c.toNat - '0'.toNat)) 0

/-- The integer an optionally signed run of decimal digits denotes. -/
def intValue (l : List Char) : Int :=
  if l.head? = some '-' then -(decimalValue l.tail : Int)
  else if l.head? = some '+' then (decimalValue l.tail : Int)
  else (decimalValue l : Int)

/-- A field without its sign: the first character is cut when it is `-` or
`+`. -/
def signBody (l : List Char) : List Char :=
  if l.head? = some '-' ∨ l.head? = some '+' then l.tail else l

/-- An optionally signed run of one or more decimal digits. -/
def isNumeral (l : List Char) : Bool :=
  !(signBody l).isEmpty && (signBody l).all isDigit

/-- The integer of a field in the words of the claim: its decimal value, 0 for
a field that is not a valid integer. -/
def specInt (f : String) : Int :=
  if isNumeral f.data then intValue f.data else 0

/-- Smallest 64-bit `int`. -/
def minInt64 : Int := -(2 ^ 63)

/-- Largest 64-bit `int`. -/
def maxInt64 : Int := 2 ^ 63 - 1

/-- The integer of a field in the words of the amended claim.  When the digits
that follow the optional sign already exceed the largest `uint64`, the bound of
`int` on the side of the sign; otherwise 0 when the field is not an optionally
signed run of digits; otherwise the decimal value, brought into the range of
`int`. -/
def saturatedInt (f : String) : Int :=
  let neg := f.data.head? = some '-'
  let body := signBody f.data
  let p := body.takeWhile isDigit
  if decimalValue p > maxUint64 then (if neg then minInt64 else maxInt64)
  else if body = [] ∨ p ≠ body then 0
  else if neg then max minInt64 (-(decimalValue body : Int))
  else min maxInt64 (decimalValue body : Int)

/-- The box the claim describes for one line, `intOf` reading the integer of a
field: a line of exactly six fields gives the box of the first rune of field 1
and the integers of fields 2 to 6; any other line gives none. -/
def specBoxLine (intOf : String → Int) (line : String) : Option Box :=
  match strings.Fields line with
  | [f0, f1, f2, f3, f4, f5] =>
    some { Char := f0.data.headD ' ', Left := intOf f1, Bottom := intOf f2,
           Right := intOf f3, Top := intOf f4, Page := intOf f5 }
  | _ => none

/-- The boxes the claim describes for a content: one per line of six fields, in
the order of the lines. -/
def specBoxes (intOf : String → Int) (content : String) : List Box :=
  (splitAux '\n' content.data []).filterMap (fun l => specBoxLine intOf (String.mk l))

/-- The lines of a text in the words of the specification: a line ends at a
newline or at a carriage return followed by a newline, and neither belongs to
the line.  `cur` is the line being read, reversed. -/
def specLines : List Char → List Char → List (List Char)
  | [], cur => [cur.reverse]
  | [c], cur => if c = '\n' then [cur.reverse, []] else [(c :: cur).reverse]
  | c :: d :: cs, cur =>
    if c = '\n' then cur.reverse :: specLines (d :: cs) []
    else if c = '\r' ∧ d = '\n' then cur.reverse :: specLines cs []
    else specLines (d :: cs) (c :: cur)

/-- The languages the specification describes for an output of `--list-langs`:
the lines after the first that are not empty, in their order. -/
def specLanguages (out : String) : List String :=
  (((specLines out.data []).drop 1).filter (fun l => decide (l ≠ []))).map String.mk

/-! ## Sample inputs -/

/-- An environment in which everything succeeds: only `eng` and `osd` are
installed, and the engine exits with code 1 when asked for another language. -/
def sampleEnv : Env where
  statOk := fun path => path == "/usr/bin/tesseract"
  lookPath := fun file => if file = "tesseract" then some "/usr/bin/tesseract" else none
  mkdirTemp := fun n => .ok ("/tmp/tesseract_" ++ fmtInt n)
  createFile := fun _ => none
  pngEncode := fun _ => none
  writeFile := fun _ => none
  readFile := fun _ => .ok "<html/>"
  versionOutput := fun _ => .ok "tesseract 4.1.1\n leptonica-1.79.0\n"
  subprocess := fun _ args _ =>
    if args = ["--list-langs"] then .exited 0 "List of available languages (2):\neng\nosd\n" ""
    else if args.contains "invalid" then
      .exited 1 "" "Error opening data file invalid.traineddata\n"
    else .exited 0 "Hello\n" ""

/-- An environment like `sampleEnv` in which the engine never finishes in time:
every run under a deadline is killed when the deadline expires. -/
def slowEnv : Env :=
  { sampleEnv with
    subprocess := fun cmd args ctx =>
      if ctx.isSome then .killed "" "" else sampleEnv.subprocess cmd args ctx }

/-- A one-pixel image. -/
def sampleImage : Image := { width := 1, height := 1, pixels := [0] }

/-- A client with a timeout of five seconds. -/
def sampleClient : Client :=
  { config := { TesseractPath := "", Language := "", ConfigFile := "", Timeout := 5000000000,
                Nice := 0, OutputType := OutputString } }

/-- The state of a fresh program. -/
def sampleWorld : World := { TesseractCmd := "tesseract", trace := [] }

/-- An environment like `sampleEnv` in which no temporary directory can be
made. -/
def fullDiskEnv : Env :=
  { sampleEnv with mkdirTemp := fun _ => .error "no space left on device" }

/-- An environment like `sampleEnv` in which the engine is not installed: no
subprocess can be started. -/
def noEngineEnv : Env :=
  { sampleEnv with
    subprocess := fun _ _ _ => .failed "exec: \"tesseract\": executable file not found in $PATH" }

/-! ## Theorems -/

/-! ### Which errors can come out -/

/-- The error of createTempDir is a wrapped library error. -/
theorem createTempDir_err (env : Env) (w : World) (e : Err)
    (h : (createTempDir env w).1 = .error e) : e.isSentinel = false := by
  unfold createTempDir at h
  cases hm : env.mkdirTemp (mkdirCount w) <;> rw [hm] at h <;> simp at h
  subst h; rfl

/-- The errors of saveImage are library errors. -/
theorem saveImage_err (env : Env) (dir : String) (img : Option Image) (w : World) (v : String)
    (e : Err) (h : (saveImage env dir img w).1 = .ret v (some e)) : e.isSentinel = false := by
  unfold saveImage at h
  simp only at h
  cases h1 : env.createFile (filepathJoin dir "input.png") <;> rw [h1] at h <;> simp only at h
  · cases img with
    | none => simp at h
    | some im =>
      simp only at h
      cases h2 : env.pngEncode im <;> rw [h2] at h <;> simp only at h
      · cases h3 : env.writeFile (filepathJoin dir "input.png") <;> rw [h3] at h <;> simp at h
        obtain ⟨-, rfl⟩ := h; rfl
      · simp at h; obtain ⟨-, rfl⟩ := h; rfl
  · simp at h; obtain ⟨-, rfl⟩ := h; rfl

/-- No error returned by runOCR is one of the package-level error variables. -/
theorem runOCR_err (env : Env) (ctx : Context) (img : Option Image) (lang : String)
    (args : List String) (w : World) (v : String) (e : Err)
    (h : (runOCR env ctx img lang args w).1 = .ret v (some e)) : e.isSentinel = false := by
  unfold runOCR at h
  rcases hc : createTempDir env w with ⟨r1, w1⟩
  rw [hc] at h
  cases r1 with
  | error e1 =>
    simp at h
    obtain ⟨-, rfl⟩ := h
    exact createTempDir_err env w e1 (by rw [hc])
  | ok dir =>
    simp only at h
    rcases hs : saveImage env dir img w1 with ⟨r2, w2⟩
    rw [hs] at h
    cases r2 with
    | panic m => simp at h
    | ret v2 e2 =>
      cases e2 with
      | some e2 =>
        simp at h
        obtain ⟨-, rfl⟩ := h
        exact saveImage_err env dir img w1 v2 e2 (by rw [hs])
      | none =>
        simp only at h
        split at h <;> simp at h
        · obtain ⟨-, rfl⟩ := h; rfl
        · obtain ⟨-, rfl⟩ := h; rfl


/-- The only errors of validateLanguage are ErrTesseractNotFound and ErrLanguageNotFound. -/
theorem validateLanguage_err (env : Env) (lang : String) (w : World) (e : Err)
    (h : (validateLanguage env lang w).1 = some e) :
    e = .ErrTesseractNotFound ∨ e = .ErrLanguageNotFound := by
  unfold validateLanguage GetAvailableLanguages at h
  simp only at h
  split at h
  · rename_i e1 w1 heq
    split at heq <;> simp at heq
    simp at h
    left; rw [← h, ← heq.1]
  · simp only at h
    split at h <;> simp at h
    right; exact h.symm

/-- No error returned by ImageToString is one of the package-level error variables. -/
theorem ImageToString_err (env : Env) (c : Client) (img : Option Image) (lang : String)
    (w : World) (v : String) (e : Err)
    (h : (Client.ImageToString env c img lang w).1 = .ret v (some e)) : e.isSentinel = false := by
  unfold Client.ImageToString at h
  cases img with
  | none => simp [validateImageFormat] at h; obtain ⟨-, rfl⟩ := h; rfl
  | some im =>
    simp only [validateImageFormat] at h
    rcases hr : runOCR env c.context (some im) lang ["stdout"] w with ⟨r, w1⟩
    rw [hr] at h
    cases r with
    | panic m => simp at h
    | ret v1 e1 =>
      cases e1 with
      | none => simp at h
      | some e1 =>
        simp at h
        obtain ⟨-, rfl⟩ := h
        exact runOCR_err env c.context (some im) lang ["stdout"] w v1 e1 (by rw [hr])

/-- No error returned by ImageToOutput is one of the package-level error variables. -/
theorem ImageToOutput_err (env : Env) (c : Client) (img : Option Image) (lang : String)
    (outputType : OutputType) (w : World) (v : OutVal) (e : Err)
    (h : (Client.ImageToOutput env c img lang outputType w).1 = .ret v (some e)) :
    e.isSentinel = false := by
  unfold Client.ImageToOutput at h
  cases img with
  | none => simp [validateImageFormat] at h; obtain ⟨-, rfl⟩ := h; rfl
  | some im =>
    simp only [validateImageFormat] at h
    rcases hr : runOCR env c.context (some im) lang ["stdout"] w with ⟨r, w1⟩
    rw [hr] at h
    cases r with
    | panic m => simp at h
    | ret v1 e1 =>
      cases e1 with
      | none =>
        simp only at h
        repeat' split at h
        all_goals simp at h
        obtain ⟨-, rfl⟩ := h; rfl
      | some e1 =>
        simp at h
        obtain ⟨-, rfl⟩ := h
        exact runOCR_err env c.context (some im) lang ["stdout"] w v1 e1 (by rw [hr])

/-- No error returned by ImageToFile is one of the package-level error variables. -/
theorem ImageToFile_err (env : Env) (c : Client) (img : Option Image) (lang outputFile : String)
    (w : World) (v : Unit) (e : Err)
    (h : (Client.ImageToFile env c img lang outputFile w).1 = .ret v (some e)) :
    e.isSentinel = false := by
  unfold Client.ImageToFile at h
  cases img with
  | none => simp [validateImageFormat] at h; subst h; rfl
  | some im =>
    simp only [validateImageFormat] at h
    rcases hr : runOCR env c.context (some im) lang [outputFile] w with ⟨r, w1⟩
    rw [hr] at h
    cases r with
    | panic m => simp at h
    | ret v1 e1 =>
      simp at h
      subst h
      exact runOCR_err env c.context (some im) lang [outputFile] w v1 e (by rw [hr])

/-- The only package-level error variables ImageToExtension can return are those of validateLanguage. -/
theorem ImageToExtension_err (env : Env) (c : Client) (img : Option Image)
    (lang extension : String) (w : World) (v : String) (e : Err)
    (h : (Client.ImageToExtension env c img lang extension w).1 = .ret v (some e)) :
    e.isSentinel = false ∨ e = .ErrTesseractNotFound ∨ e = .ErrLanguageNotFound := by
  unfold Client.ImageToExtension at h
  cases img with
  | none => simp [validateImageFormat] at h; obtain ⟨-, rfl⟩ := h; left; rfl
  | some im =>
    simp only [validateImageFormat] at h
    cases hx : supportedExtensions extension with
    | none => rw [hx] at h; simp at h; obtain ⟨-, rfl⟩ := h; left; rfl
    | some extConfig =>
      rw [hx] at h
      simp only at h
      rcases hc : createTempDir env w with ⟨r1, w1⟩
      rw [hc] at h
      cases r1 with
      | error e1 =>
        simp at h
        obtain ⟨-, rfl⟩ := h
        left; exact createTempDir_err env w e1 (by rw [hc])
      | ok dir =>
        simp only at h
        rcases hv : (if lang ≠ "" then validateLanguage env lang w1 else (none, w1)) with ⟨r2, w2⟩
        rw [hv] at h
        cases r2 with
        | some e2 =>
          simp at h
          obtain ⟨-, rfl⟩ := h
          right
          split at hv
          · exact validateLanguage_err env lang w1 e2 (by rw [hv])
          · simp at hv
        | none =>
          simp only at h
          generalize hargs : ((if lang ≠ "" then [filepathJoin dir "output"] ++ ["-l", lang]
            else [filepathJoin dir "output"]) ++ ["-c", extConfig.config]) = args at h
          rcases hr : runOCR env c.context (some im) lang args w2 with ⟨r3, w3⟩
          rw [hr] at h
          cases r3 with
          | panic m => simp at h
          | ret v3 e3 =>
            cases e3 with
            | some e3 =>
              simp at h
              obtain ⟨-, rfl⟩ := h
              left; exact runOCR_err env c.context (some im) lang args w2 v3 e3 (by rw [hr])
            | none =>
              simp only at h
              split at h <;> simp at h
              obtain ⟨-, rfl⟩ := h; left; rfl

/-! ### Decimal numerals -/

/-- The value of two runs of digits written one after the other. -/
theorem decimalValue_append (xs ys : List Char) :
    decimalValue (xs ++ ys) = decimalValue xs * 10 ^ ys.length + decimalValue ys := by
  induction ys using List.reverseRecOn generalizing xs with
  | nil => simp [decimalValue]
  | append_singleton ys y ih =>
    rw [← List.append_assoc]
    have h1 : ∀ zs : List Char, decimalValue (zs ++ [y]) =
        decimalValue zs * 10 + (y.toNat - '0'.toNat) := by
      intro zs; simp [decimalValue, List.foldl_append]
    rw [h1, h1, ih]
    simp [pow_succ]
    ring

/-- The character of a digit below ten is a digit with that value. -/
theorem digitChar_value (k : Nat) (hk : k < 10) :
    (Nat.digitChar k).toNat - '0'.toNat = k ∧ isDigit (Nat.digitChar k) = true := by
  interval_cases k <;> decide

/-- The digits are put in front of the accumulator. -/
theorem toDigitsCore_append (fuel n : Nat) (ds : List Char) :
    Nat.toDigitsCore 10 fuel n ds = Nat.toDigitsCore 10 fuel n [] ++ ds := by
  induction fuel generalizing n ds with
  | zero => simp [Nat.toDigitsCore]
  | succ f ih =>
    simp only [Nat.toDigitsCore]
    split
    · simp
    · rw [ih (n / 10) (_ :: ds), ih (n / 10) [_]]
      simp

/-- With enough fuel the digits of a number denote it. -/
theorem toDigitsCore_value (fuel n : Nat) (h : n < fuel) :
    decimalValue (Nat.toDigitsCore 10 fuel n []) = n ∧
    (∀ c ∈ Nat.toDigitsCore 10 fuel n [], isDigit c = true) ∧
    Nat.toDigitsCore 10 fuel n [] ≠ [] := by
  induction fuel generalizing n with
  | zero => omega
  | succ f ih =>
    have hd := digitChar_value (n % 10) (Nat.mod_lt _ (by norm_num))
    simp only [Nat.toDigitsCore]
    split
    · rename_i h0
      refine ⟨?_, ?_, by simp⟩
      · simp only [decimalValue, List.foldl_cons, List.foldl_nil, Nat.zero_mul, Nat.zero_add]
        rw [hd.1]; omega
      · intro c hc; simp at hc; subst hc; exact hd.2
    · rename_i h0
      rw [toDigitsCore_append]
      have hlt : n / 10 < f := by omega
      obtain ⟨hv, hall, -⟩ := ih (n / 10) hlt
      refine ⟨?_, ?_, by simp⟩
      · rw [decimalValue_append, hv]
        simp only [decimalValue, List.foldl_cons, List.foldl_nil, Nat.zero_mul, Nat.zero_add,
          List.length_singleton, pow_one]
        rw [hd.1]; omega
      · intro c hc
        simp only [List.mem_append, List.mem_singleton] at hc
        rcases hc with hc | hc
        · exact hall c hc
        · subst hc; exact hd.2

/-- A digit is not a sign. -/
theorem isDigit_not_sign (c : Char) (h : isDigit c = true) : c ≠ '-' ∧ c ≠ '+' := by
  constructor <;> (intro hc; subst hc; revert h; decide)

/-- The text `%d` prints denotes the integer printed. -/
theorem fmtInt_value (i : Int) : intValue (fmtInt i).data = i := by
  cases i with
  | ofNat n =>
    obtain ⟨hv, hall, hne⟩ := toDigitsCore_value (n + 1) n (Nat.lt_succ_self n)
    simp only [fmtInt, Nat.toDigits]
    cases hl : Nat.toDigitsCore 10 (n + 1) n [] with
    | nil => exact absurd hl hne
    | cons c cs =>
      rw [hl] at hv hall
      have hs := isDigit_not_sign c (hall c (List.mem_cons_self _ _))
      simp [intValue, hs.1, hs.2, hv]
  | negSucc n =>
    obtain ⟨hv, -, -⟩ := toDigitsCore_value (n + 1 + 1) (n + 1) (Nat.lt_succ_self _)
    have hd : (fmtInt (Int.negSucc n)).data = '-' :: Nat.toDigits 10 (n + 1) := rfl
    rw [hd]
    simp only [intValue, List.head?_cons, if_true, List.tail_cons, Nat.toDigits, hv]
    rfl

/-! ### TrimSpace and the exit of the subprocess -/

/-- What TrimSpace does to the characters: a run of white space is cut at both
ends, and what is left neither starts nor ends with white space. -/
theorem trimSpaceChars_spec (l : List Char) :
    ∃ a r, l = a ++ trimSpaceChars l ++ r ∧
      (∀ c ∈ a, unicode.IsSpace c = true) ∧ (∀ c ∈ r, unicode.IsSpace c = true) ∧
      (∀ c, (trimSpaceChars l).head? = some c → unicode.IsSpace c = false) ∧
      (∀ c, (trimSpaceChars l).getLast? = some c → unicode.IsSpace c = false) := by
  have hm : (l.dropWhile unicode.IsSpace) =
      trimSpaceChars l ++ ((l.dropWhile unicode.IsSpace).reverse.takeWhile unicode.IsSpace).reverse := by
    have h := List.takeWhile_append_dropWhile unicode.IsSpace
      (l.dropWhile unicode.IsSpace).reverse
    have h2 := congrArg List.reverse h
    rw [List.reverse_append, List.reverse_reverse] at h2
    exact h2.symm
  refine ⟨l.takeWhile unicode.IsSpace,
    ((l.dropWhile unicode.IsSpace).reverse.takeWhile unicode.IsSpace).reverse, ?_, ?_, ?_, ?_, ?_⟩
  · rw [List.append_assoc, ← hm, List.takeWhile_append_dropWhile]
  · intro c hc
    exact List.mem_takeWhile_imp hc
  · intro c hc
    exact List.mem_takeWhile_imp (List.mem_reverse.mp hc)
  · intro c hc
    have hd := List.head?_dropWhile_not unicode.IsSpace l
    cases ht : trimSpaceChars l with
    | nil => rw [ht] at hc; simp at hc
    | cons x xs =>
      rw [ht] at hc hm
      simp at hc
      subst hc
      rw [hm] at hd
      simpa using hd
  · intro c hc
    have hne : List.rdropWhile unicode.IsSpace (l.dropWhile unicode.IsSpace) ≠ [] := by
      intro h0
      have : trimSpaceChars l = [] := h0
      rw [this] at hc; simp at hc
    have hl := List.rdropWhile_last_not unicode.IsSpace (l.dropWhile unicode.IsSpace) hne
    have hc2 : (List.rdropWhile unicode.IsSpace (l.dropWhile unicode.IsSpace)).getLast? = some c := hc
    rw [List.getLast?_eq_getLast _ hne] at hc2
    simp only [Option.some.injEq] at hc2
    rw [hc2] at hl
    simpa using hl

/-- A run that gets as far as the subprocess and sees it exit with a code other
than 0 returns the OCRError of that exit. -/
theorem runOCR_exit_error (env : Env) (ctx : Context) (im : Image) (lang : String)
    (args : List String) (w : World) (dir out s : String) (c : Nat)
    (hdir : env.mkdirTemp (mkdirCount w) = .ok dir)
    (hcreate : env.createFile (filepathJoin dir "input.png") = none)
    (hpng : env.pngEncode im = none)
    (hwrite : env.writeFile (filepathJoin dir "input.png") = none)
    (hproc : env.subprocess w.TesseractCmd
      (if lang ≠ "" then [filepathJoin dir "input.png"] ++ args ++ ["-l", lang]
        else [filepathJoin dir "input.png"] ++ args) ctx = .exited c out s)
    (hc : c ≠ 0) :
    (runOCR env ctx (some im) lang args w).1 = .ret "" (some (.ocr { Code := c, Stderr := s })) := by
  obtain ⟨n, rfl⟩ := Nat.exists_eq_succ_of_ne_zero hc
  simp only [runOCR, createTempDir, saveImage, hdir, hcreate, hpng, hwrite, World.emit]
  rw [hproc]
  simp [cmdOutput]

/-! ### The table of parseTSV -/

/-- Reading a column of a table given by distinct keys and their values. -/
theorem Table.get_zip (hs : List String) (hn : hs.Nodup) (cs : List (List String))
    (hl : cs.length = hs.length) (i : Nat) (hi : i < hs.length) :
    Table.get (List.zip hs cs) (hs.get ⟨i, hi⟩) = cs[i]?.getD [] := by
  induction hs generalizing cs i with
  | nil => simp at hi
  | cons h hs ih =>
    cases cs with
    | nil => simp at hl
    | cons c cs =>
      simp only [List.length_cons, Nat.add_right_cancel_iff] at hl
      rw [List.nodup_cons] at hn
      cases i with
      | zero => simp [Table.get, List.lookup]
      | succ i =>
        have hi2 : i < hs.length := by simpa using hi
        have hne : (hs.get ⟨i, hi2⟩ == h) = false := by
          rw [beq_eq_false_iff_ne]
          intro he
          exact hn.1 (he ▸ List.get_mem hs i hi2)
        have := ih hn.2 cs hl i hi2
        simp only [Table.get] at this
        simp only [Table.get, List.zip_cons_cons, List.get_cons_succ, List.lookup, hne,
          List.getElem?_cons_succ]
        exact this

/-- Assigning a column of a table given by distinct keys and their values. -/
theorem Table.set_zip (hs : List String) (hn : hs.Nodup) (cs : List (List String))
    (hl : cs.length = hs.length) (i : Nat) (hi : i < hs.length) (v : List String) :
    Table.set (List.zip hs cs) (hs.get ⟨i, hi⟩) v = List.zip hs (cs.set i v) := by
  induction hs generalizing cs i with
  | nil => simp at hi
  | cons h hs ih =>
    cases cs with
    | nil => simp at hl
    | cons c cs =>
      simp only [List.length_cons, Nat.add_right_cancel_iff] at hl
      rw [List.nodup_cons] at hn
      cases i with
      | zero =>
        show Table.set ((h, c) :: List.zip hs cs) h v = (h, v) :: List.zip hs cs
        simp [Table.set]
      | succ i =>
        have hi2 : i < hs.length := by simpa using hi
        have hne : h ≠ hs.get ⟨i, hi2⟩ := by
          intro he
          exact hn.1 (he ▸ List.get_mem hs i hi2)
        have := ih hn.2 cs hl i hi2
        show Table.set ((h, c) :: List.zip hs cs) (hs.get ⟨i, hi2⟩) v
          = (h, c) :: List.zip hs (cs.set i v)
        rw [Table.set, if_neg hne, this]

/-- Assigning a key that is not in the table adds it at the end. -/
theorem Table.set_fresh (m : Table) (k : String) (v : List String)
    (hk : k ∉ m.map Prod.fst) : Table.set m k v = m ++ [(k, v)] := by
  induction m with
  | nil => rfl
  | cons e m ih =>
    obtain ⟨k0, v0⟩ := e
    simp only [List.map_cons, List.mem_cons, not_or] at hk
    have hne : k0 ≠ k := fun h => hk.1 h.symm
    rw [Table.set, if_neg hne, ih hk.2]
    rfl

/-- The first loop of parseTSV gives every header an empty column. -/
theorem headers_init (pre hs : List String) (hn : (pre ++ hs).Nodup) :
    hs.foldl (fun (m : Table) header => m.set header []) (pre.map (fun h => (h, [])))
      = (pre ++ hs).map (fun h => (h, [])) := by
  induction hs generalizing pre with
  | nil => simp
  | cons h hs ih =>
    have hfresh : h ∉ (pre.map (fun h => (h, ([] : List String)))).map Prod.fst := by
      rw [List.map_map]
      have : (Prod.fst ∘ fun h : String => (h, ([] : List String))) = id := rfl
      rw [this, List.map_id]
      intro hmem
      rw [List.nodup_append] at hn
      exact hn.2.2 hmem (List.mem_cons_self _ _)
    have hn2 : ((pre ++ [h]) ++ hs).Nodup := by simpa using hn
    have := ih (pre ++ [h]) hn2
    simp only [List.foldl_cons]
    rw [Table.set_fresh _ _ _ hfresh]
    simp only [List.map_append, List.map_cons, List.map_nil, List.append_assoc,
      List.singleton_append] at this ⊢
    exact this

/-- The inner loop of parseTSV appends field j of the row to column j. -/
theorem parseTSVRow_zip (hs : List String) (hn : hs.Nodup) (cols : List String) (i : Nat)
    (cs : List (List String)) (hl : cs.length = hs.length) :
    ∃ cs1 : List (List String), parseTSVRow hs cols i (List.zip hs cs) = List.zip hs cs1 ∧
      cs1.length = hs.length ∧
      ∀ j, j < hs.length → cs1[j]?.getD [] = cs[j]?.getD [] ++
        (if i ≤ j ∧ j < i + cols.length then [cols.getD (j - i) ""] else []) := by
  induction cols generalizing i cs with
  | nil =>
    refine ⟨cs, rfl, hl, ?_⟩
    intro j _
    have : ¬ (i ≤ j ∧ j < i + ([] : List String).length) := by simp
    rw [if_neg this, List.append_nil]
  | cons col cols ih =>
    by_cases h : i < hs.length
    · have hstep : parseTSVRow hs (col :: cols) i (List.zip hs cs) =
          parseTSVRow hs cols (i + 1) (List.zip hs (cs.set i (cs[i]?.getD [] ++ [col]))) := by
        rw [parseTSVRow]
        simp only [h, dite_true]
        rw [Table.get_zip hs hn cs hl i h, Table.set_zip hs hn cs hl i h]
      obtain ⟨cs1, h1, h2, h3⟩ := ih (i + 1) (cs.set i (cs[i]?.getD [] ++ [col]))
        (by simpa using hl)
      refine ⟨cs1, by rw [hstep, h1], h2, ?_⟩
      intro j hj
      rw [h3 j hj]
      have hic : i < cs.length := by omega
      by_cases hji : j = i
      · subst hji
        have c1 : ¬ (j + 1 ≤ j ∧ j < j + 1 + cols.length) := by omega
        have c2 : j ≤ j ∧ j < j + (col :: cols).length := by simp
        rw [if_neg c1, if_pos c2]
        simp [List.getElem?_set, hic]
      · have hset : (cs.set i (cs[i]?.getD [] ++ [col]))[j]? = cs[j]? := by
          rw [List.getElem?_set]
          simp [Ne.symm hji]
        rw [hset]
        by_cases hlt : i < j
        · obtain ⟨d, rfl⟩ : ∃ d, j = i + 1 + d := ⟨j - (i + 1), by omega⟩
          have e1 : i + 1 + d - (i + 1) = d := by omega
          have e2 : i + 1 + d - i = d + 1 := by omega
          by_cases hd : d < cols.length
          · have c1 : i + 1 ≤ i + 1 + d ∧ i + 1 + d < i + 1 + cols.length := by omega
            have c2 : i ≤ i + 1 + d ∧ i + 1 + d < i + (col :: cols).length := by
              simp only [List.length_cons]; omega
            rw [if_pos c1, if_pos c2, e1, e2]
            simp
          · have c1 : ¬ (i + 1 ≤ i + 1 + d ∧ i + 1 + d < i + 1 + cols.length) := by omega
            have c2 : ¬ (i ≤ i + 1 + d ∧ i + 1 + d < i + (col :: cols).length) := by
              simp only [List.length_cons]; omega
            rw [if_neg c1, if_neg c2]
        · have c1 : ¬ (i + 1 ≤ j ∧ j < i + 1 + cols.length) := by omega
          have c2 : ¬ (i ≤ j ∧ j < i + (col :: cols).length) := by omega
          rw [if_neg c1, if_neg c2]
    · have hstep : parseTSVRow hs (col :: cols) i (List.zip hs cs) =
          parseTSVRow hs cols (i + 1) (List.zip hs cs) := by
        rw [parseTSVRow]
        simp only [h, dite_false]
      obtain ⟨cs1, h1, h2, h3⟩ := ih (i + 1) cs hl
      refine ⟨cs1, by rw [hstep, h1], h2, ?_⟩
      intro j hj
      rw [h3 j hj]
      have c1 : ¬ (i + 1 ≤ j ∧ j < i + 1 + cols.length) := by omega
      have c2 : ¬ (i ≤ j ∧ j < i + (col :: cols).length) := by omega
      rw [if_neg c1, if_neg c2]

/-- The outer loop of parseTSV appends, row after row, field j to column j. -/
theorem parseTSV_fold (hs : List String) (hn : hs.Nodup) (f : String → List String)
    (rows : List String) (hrows : ∀ r ∈ rows, hs.length ≤ (f r).length)
    (cs : List (List String)) (hl : cs.length = hs.length) :
    ∃ cs1 : List (List String),
      rows.foldl (fun (m : Table) row => parseTSVRow hs (f row) 0 m) (List.zip hs cs)
        = List.zip hs cs1 ∧
      cs1.length = hs.length ∧
      ∀ j, j < hs.length →
        cs1[j]?.getD [] = cs[j]?.getD [] ++ rows.map (fun r => (f r).getD j "") := by
  induction rows generalizing cs with
  | nil => exact ⟨cs, rfl, hl, fun j _ => by simp⟩
  | cons r rows ih =>
    obtain ⟨cs1, h1, h2, h3⟩ := parseTSVRow_zip hs hn (f r) 0 cs hl
    obtain ⟨cs2, g1, g2, g3⟩ := ih (fun x hx => hrows x (List.mem_cons_of_mem _ hx)) cs1 h2
    refine ⟨cs2, by rw [List.foldl_cons, h1, g1], g2, ?_⟩
    intro j hj
    rw [g3 j hj, h3 j hj]
    have hr := hrows r (List.mem_cons_self _ _)
    have c1 : 0 ≤ j ∧ j < 0 + (f r).length := by omega
    rw [if_pos c1]
    simp

/-! ### Listing and validating languages -/

/-- GetAvailableLanguages runs one subprocess, the listing. -/
theorem GetAvailableLanguages_snd (env : Env) (w : World) :
    (GetAvailableLanguages env w).2 = w.emit (.exec w.TesseractCmd ["--list-langs"]) := by
  unfold GetAvailableLanguages
  simp only
  split <;> rfl

/-- The listing depends on the state only through TesseractCmd. -/
theorem GetAvailableLanguages_congr (env : Env) (w1 w2 : World)
    (h : w1.TesseractCmd = w2.TesseractCmd) :
    (GetAvailableLanguages env w1).1 = (GetAvailableLanguages env w2).1 := by
  unfold GetAvailableLanguages
  simp only [h]
  split <;> rfl

/-- The only error of GetAvailableLanguages is ErrTesseractNotFound. -/
theorem GetAvailableLanguages_error (env : Env) (w : World) (e : Err)
    (h : (GetAvailableLanguages env w).1 = .error e) : e = .ErrTesseractNotFound := by
  unfold GetAvailableLanguages at h
  simp only at h
  split at h <;> simp at h
  exact h.symm

/-- What validateLanguage returns when the listing succeeds. -/
theorem validateLanguage_ok (env : Env) (lang : String) (w : World) (L : List String)
    (h : (GetAvailableLanguages env w).1 = .ok L) :
    validateLanguage env lang w =
      (if lang ∈ L then none else some .ErrLanguageNotFound,
       w.emit (.exec w.TesseractCmd ["--list-langs"])) := by
  have h2 := GetAvailableLanguages_snd env w
  unfold validateLanguage
  rcases hg : GetAvailableLanguages env w with ⟨r, w1⟩
  rw [hg] at h h2
  simp only at h h2
  subst h h2
  simp only
  by_cases hm : lang ∈ L
  · have : L.any (fun l => decide (l = lang)) = true := by
      rw [List.any_eq_true]; exact ⟨lang, hm, by simp⟩
    simp [this, hm]
  · have : L.any (fun l => decide (l = lang)) = false := by
      rw [List.any_eq_false]
      intro x hx
      simp only [decide_eq_true_eq]
      intro hxl; exact hm (hxl ▸ hx)
    simp [this, hm]

/-- What validateLanguage returns when the listing fails. -/
theorem validateLanguage_error (env : Env) (lang : String) (w : World) (e : Err)
    (h : (GetAvailableLanguages env w).1 = .error e) :
    (validateLanguage env lang w).1 = some .ErrTesseractNotFound := by
  have he := GetAvailableLanguages_error env w e h
  unfold validateLanguage
  rcases hg : GetAvailableLanguages env w with ⟨r, w1⟩
  rw [hg] at h
  simp only at h
  subst h
  simp [he]

/-! ### strconv.Atoi -/

/-- A digit has a value of at most nine. -/
theorem isDigit_value (c : Char) (h : isDigit c = true) : c.toNat - '0'.toNat ≤ 9 := by
  simp only [isDigit, Bool.and_eq_true, decide_eq_true_eq] at h
  have h9 : '9'.toNat = 57 := by decide
  have h0 : '0'.toNat = 48 := by decide
  omega

/-- The value of a run of digits, by its first digit. -/
theorem decimalValue_cons (c : Char) (cs : List Char) :
    decimalValue (c :: cs) = (c.toNat - '0'.toNat) * 10 ^ cs.length + decimalValue cs := by
  have := decimalValue_append [c] cs
  simpa [decimalValue] using this

/-- A run of k digits denotes a number below the k-th power of ten. -/
theorem decimalValue_lt (ds : List Char) (h : ∀ c ∈ ds, isDigit c = true) :
    decimalValue ds < 10 ^ ds.length := by
  induction ds with
  | nil => simp [decimalValue]
  | cons c cs ih =>
    rw [decimalValue_cons]
    have hc := isDigit_value c (h c (List.mem_cons_self _ _))
    have := ih (fun x hx => h x (List.mem_cons_of_mem _ hx))
    simp only [List.length_cons, pow_succ]
    nlinarith

/-- The loop of ParseUint over a run of digits: a range error when the number leaves uint64, else on with the number read. -/
theorem parseUintLoop_digits (ds rest : List Char) (n : Nat)
    (h : ∀ c ∈ ds, isDigit c = true) (hn : n ≤ maxUint64) :
    parseUintLoop (ds ++ rest) n =
      if n * 10 ^ ds.length + decimalValue ds > maxUint64 then (maxUint64, some .ErrRange)
      else parseUintLoop rest (n * 10 ^ ds.length + decimalValue ds) := by
  induction ds generalizing n with
  | nil =>
    have : ¬ (n * 10 ^ ([] : List Char).length + decimalValue [] > maxUint64) := by
      simp [decimalValue]; omega
    rw [if_neg this]
    simp [decimalValue]
  | cons c cs ih =>
    have hc := h c (List.mem_cons_self _ _)
    have hd := isDigit_value c hc
    have hcs : ∀ x ∈ cs, isDigit x = true := fun x hx => h x (List.mem_cons_of_mem _ hx)
    have hpos : 1 ≤ 10 ^ cs.length := Nat.one_le_pow _ _ (by norm_num)
    have hval : n * 10 ^ (c :: cs).length + decimalValue (c :: cs)
        = (n * 10 + (c.toNat - '0'.toNat)) * 10 ^ cs.length + decimalValue cs := by
      rw [decimalValue_cons]
      simp only [List.length_cons, pow_succ]
      ring
    have hge : n * 10 + (c.toNat - '0'.toNat)
        ≤ (n * 10 + (c.toNat - '0'.toNat)) * 10 ^ cs.length + decimalValue cs := by
      nlinarith
    have hmax : maxUint64 = 18446744073709551615 := by decide
    rw [hval]
    simp only [List.cons_append, parseUintLoop, hc, if_true]
    generalize c.toNat - '0'.toNat = d at hd hge ⊢
    by_cases h1 : n ≥ maxUint64 / 10 + 1
    · rw [if_pos h1]
      have : (n * 10 + d) * 10 ^ cs.length + decimalValue cs > maxUint64 := by
        rw [hmax] at h1 ⊢; omega
      rw [if_pos this]
    · rw [if_neg h1]
      by_cases h2 : n * 10 + d ≥ 2 ^ 64
      · have c1 : (n * 10 + d) % 2 ^ 64 < n * 10 ∨ (n * 10 + d) % 2 ^ 64 > maxUint64 := by
          left; omega
        rw [if_pos c1]
        have : (n * 10 + d) * 10 ^ cs.length + decimalValue cs > maxUint64 := by
          rw [hmax]; omega
        rw [if_pos this]
      · have hm : (n * 10 + d) % 2 ^ 64 = n * 10 + d := Nat.mod_eq_of_lt (by omega)
        have c1 : ¬ ((n * 10 + d) % 2 ^ 64 < n * 10 ∨ (n * 10 + d) % 2 ^ 64 > maxUint64) := by
          rw [hm, hmax]; omega
        rw [if_neg c1, hm]
        exact ih (n * 10 + d) hcs (by rw [hmax]; omega)

/-- The loop of the fast path of Atoi over a run of digits. -/
theorem atoiFastLoop_digits (ds rest : List Char) (n : Int)
    (h : ∀ c ∈ ds, isDigit c = true) :
    atoiFastLoop (ds ++ rest) n =
      atoiFastLoop rest (n * 10 ^ ds.length + (decimalValue ds : Int)) := by
  induction ds generalizing n with
  | nil => simp [decimalValue]
  | cons c cs ih =>
    have hc := h c (List.mem_cons_self _ _)
    have hcs : ∀ x ∈ cs, isDigit x = true := fun x hx => h x (List.mem_cons_of_mem _ hx)
    rw [List.cons_append, atoiFastLoop, if_pos hc, ih _ hcs, decimalValue_cons]
    congr 1
    simp only [List.length_cons, pow_succ]
    push_cast
    ring

/-- What ParseUint returns, by the run of digits its argument starts with. -/
theorem parseUint_value (body : List Char) :
    strconv.ParseUint body =
      if decimalValue (body.takeWhile isDigit) > maxUint64 then (maxUint64, some .ErrRange)
      else if body = [] ∨ body.takeWhile isDigit ≠ body then (0, some .ErrSyntax)
      else (decimalValue body, none) := by
  by_cases hb : body = []
  · subst hb
    simp [strconv.ParseUint, decimalValue]
  · have hsplit := List.takeWhile_append_dropWhile isDigit body
    have hp : ∀ c ∈ body.takeWhile isDigit, isDigit c = true :=
      fun c hc => List.mem_takeWhile_imp hc
    have h1 := parseUintLoop_digits (body.takeWhile isDigit) (body.dropWhile isDigit) 0 hp
      (by decide)
    rw [hsplit] at h1
    simp only [strconv.ParseUint, hb, if_false, false_or]
    rw [h1]
    simp only [Nat.zero_mul, Nat.zero_add]
    split
    · rfl
    · cases hd : body.dropWhile isDigit with
      | nil =>
        have hpb : body.takeWhile isDigit = body := by
          rw [hd, List.append_nil] at hsplit; exact hsplit
        rw [hpb]
        simp [parseUintLoop]
      | cons x xs =>
        have hx : isDigit x = false := by
          have := List.head?_dropWhile_not isDigit body
          rw [hd] at this
          simpa using this
        have hpb : body.takeWhile isDigit ≠ body := by
          intro he
          rw [he, hd] at hsplit
          have := congrArg List.length hsplit
          simp at this
        simp [parseUintLoop, hx, hpb]

/-- The field without its sign, as ParseInt and Atoi compute it. -/
theorem signBody_cons (c : Char) (rest : List Char) :
    signBody (c :: rest) = if c = '+' ∨ c = '-' then rest else c :: rest := by
  simp only [signBody, List.head?_cons, Option.some.injEq, List.tail_cons]
  by_cases h1 : c = '-' <;> by_cases h2 : c = '+' <;> simp [h1, h2]

/-- The integer ParseInt returns is the saturated value of the field. -/
theorem parseInt_value (f : String) : (strconv.ParseInt f.data).1 = saturatedInt f := by
  have hmax : maxUint64 = 18446744073709551615 := by decide
  cases hs : f.data with
  | nil =>
    simp [strconv.ParseInt, saturatedInt, hs, signBody, decimalValue]
  | cons c rest =>
    simp only [strconv.ParseInt, saturatedInt, hs, List.head?_cons, Option.some.injEq]
    rw [← signBody_cons, parseUint_value]
    generalize signBody (c :: rest) = body
    by_cases h1 : decimalValue (body.takeWhile isDigit) > maxUint64
    · simp only [h1, if_true]
      by_cases hneg : c = '-'
      · simp [hneg, hmax, minInt64]
      · simp [hneg, hmax, maxInt64]
    · simp only [h1, if_false]
      by_cases h2 : body = [] ∨ body.takeWhile isDigit ≠ body
      · simp only [h2, if_true]
      · simp only [h2, if_false]
        have hnone : ¬ ((none : Option NumErr) = some NumErr.ErrSyntax) := by simp
        simp only [hnone, if_false]
        by_cases hneg : c = '-'
        · simp only [hneg, decide_True, Bool.not_true, Bool.false_and, Bool.true_and,
            decide_eq_true_eq, if_true]
          by_cases h3 : decimalValue body > 2 ^ 63
          · simp only [h3, if_true, minInt64]
            rw [max_eq_left]
            simp only [Bool.false_eq_true, if_false]
            push_cast
            omega
          · simp only [h3, if_false, minInt64, Bool.false_eq_true]
            rw [max_eq_right]
            push_cast
            omega
        · simp only [hneg, decide_False, Bool.not_false, Bool.true_and, Bool.false_and,
            decide_eq_true_eq, if_false]
          by_cases h3 : decimalValue body ≥ 2 ^ 63
          · simp only [h3, if_true, maxInt64]
            rw [min_eq_left]
            push_cast
            omega
          · simp only [h3, if_false, maxInt64, Bool.false_eq_true]
            rw [min_eq_right]
            push_cast
            omega

/-- A string has at least as many bytes as characters. -/
theorem length_le_byteLen (l : List Char) : l.length ≤ byteLen l := by
  induction l with
  | nil => simp [byteLen]
  | cons c cs ih =>
    have : 1 ≤ utf8Len c := by
      unfold utf8Len
      split
      · omega
      · split
        · omega
        · split <;> omega
    simp only [byteLen, List.map_cons, List.sum_cons, List.length_cons] at ih ⊢
    omega

/-- The integer Atoi returns, on both of its paths, is the saturated value of the field. -/
theorem atoi_value (f : String) : (strconv.Atoi f).1 = saturatedInt f := by
  have hmax : maxUint64 = 18446744073709551615 := by decide
  unfold strconv.Atoi
  simp only
  by_cases hfast : 0 < byteLen f.data ∧ byteLen f.data < 19
  · rw [if_pos hfast]
    cases hs : f.data with
    | nil => simp [saturatedInt, hs, signBody, decimalValue]
    | cons c rest =>
      have hlen : (c :: rest).length < 19 := by
        have := length_le_byteLen f.data
        rw [hs] at this hfast
        omega
      have hbody : (if c = '-' ∨ c = '+' then rest else c :: rest) = signBody (c :: rest) := by
        rw [signBody_cons]
        by_cases h1 : c = '-' <;> by_cases h2 : c = '+' <;> simp [h1, h2]
      simp only [saturatedInt, hs, List.head?_cons, Option.some.injEq]
      rw [hbody]
      have hbl : (signBody (c :: rest)).length ≤ (c :: rest).length := by
        rw [signBody_cons]; split <;> simp
      have hbne : ¬ (c = '-' ∨ c = '+') → signBody (c :: rest) ≠ [] := by
        intro hns
        rw [← hbody, if_neg hns]; simp
      generalize signBody (c :: rest) = body at hbl hbne
      have hsplit := List.takeWhile_append_dropWhile isDigit body
      have hp : ∀ x ∈ body.takeWhile isDigit, isDigit x = true :=
        fun x hx => List.mem_takeWhile_imp hx
      have hplen : (body.takeWhile isDigit).length ≤ 18 := by
        have := (List.takeWhile_sublist (l := body) isDigit).length_le
        simp only [List.length_cons] at hlen hbl
        omega
      have hpv : decimalValue (body.takeWhile isDigit) < 10 ^ 18 :=
        lt_of_lt_of_le (decimalValue_lt _ hp) (Nat.pow_le_pow_right (by norm_num) hplen)
      have h1 : ¬ (decimalValue (body.takeWhile isDigit) > maxUint64) := by
        rw [hmax]; omega
      rw [if_neg h1]
      by_cases hb : body = []
      · subst hb
        have hsign : c = '-' ∨ c = '+' := by
          by_contra hns; exact hbne hns rfl
        simp [hsign]
      · have hl1 : ¬ (body.length < 1) := by
          cases body with
          | nil => exact absurd rfl hb
          | cons x xs => simp
        have hfl := atoiFastLoop_digits (body.takeWhile isDigit) (body.dropWhile isDigit) 0 hp
        rw [hsplit] at hfl
        simp only [hl1, and_false, if_false, hb, false_or]
        rw [hfl]
        simp only [zero_mul, zero_add]
        cases hd : body.dropWhile isDigit with
        | nil =>
          have hpb : body.takeWhile isDigit = body := by
            rw [hd, List.append_nil] at hsplit; exact hsplit
          rw [hpb] at hpv ⊢
          have hnone : ¬ ((none : Option NumErr) = some NumErr.ErrSyntax) := by simp
          simp only [atoiFastLoop, hnone, if_false, not_true_eq_false]
          by_cases hneg : c = '-'
          · simp only [hneg, if_true, minInt64, ne_eq, not_true_eq_false, if_false]
            rw [max_eq_right]
            push_cast
            omega
          · simp only [hneg, if_false, maxInt64, ne_eq, not_true_eq_false, if_false]
            rw [min_eq_right]
            push_cast
            omega
        | cons x xs =>
          have hx : isDigit x = false := by
            have := List.head?_dropWhile_not isDigit body
            rw [hd] at this
            simpa using this
          have hpb : body.takeWhile isDigit ≠ body := by
            intro he
            rw [he, hd] at hsplit
            have := congrArg List.length hsplit
            simp at this
          simp [atoiFastLoop, hx, hpb]
  · rw [if_neg hfast]
    exact parseInt_value f

/-! ### The scanner and the loop of parseBoxFile -/

/-- No field of strings.Fields is empty. -/
theorem fieldsAux_ne_nil (l cur : List Char) : ∀ f ∈ fieldsAux l cur, f ≠ [] := by
  induction l generalizing cur with
  | nil =>
    intro f hf
    simp only [fieldsAux] at hf
    split at hf
    · simp at hf
    · rename_i hc
      simp only [List.mem_singleton] at hf
      subst hf
      intro h0
      apply hc
      simpa using h0
  | cons c cs ih =>
    intro f hf
    simp only [fieldsAux] at hf
    split at hf
    · split at hf
      · exact ih [] f hf
      · rename_i hc
        rcases List.mem_cons.mp hf with h | h
        · subst h
          intro h0
          apply hc
          simpa using h0
        · exact ih [] f h
    · exact ih (c :: cur) f hf

/-- White space at the end of a line adds no field. -/
theorem fieldsAux_append_space (l cur : List Char) (c : Char) (hc : unicode.IsSpace c = true) :
    fieldsAux (l ++ [c]) cur = fieldsAux l cur := by
  induction l generalizing cur with
  | nil =>
    simp only [List.nil_append, fieldsAux, hc, if_true]
    split <;> simp
  | cons x xs ih =>
    simp only [List.cons_append, fieldsAux]
    split
    · split
      · exact ih []
      · exact congrArg (cur.reverse :: ·) (ih [])
    · exact ih (x :: cur)

/-- Cutting the carriage return at the end of a line changes no field. -/
theorem fieldsAux_dropCR (l : List Char) : fieldsAux (dropCR l) [] = fieldsAux l [] := by
  unfold dropCR
  split
  · rename_i h
    obtain ⟨ys, hys⟩ := List.getLast?_eq_some_iff.mp h
    rw [hys, List.dropLast_concat]
    exact (fieldsAux_append_space ys [] '\r' (by decide)).symm
  · rfl

/-- The body of the loop of parseBoxFile never panics and builds the box of the amended claim. -/
theorem parseBoxLine_eq (line : String) :
    parseBoxLine line = (specBoxLine saturatedInt line).map (fun b => Ret.ret b none) := by
  unfold parseBoxLine specBoxLine
  have hne : ∀ f ∈ strings.Fields line, f.data ≠ [] := by
    intro f hf
    simp only [strings.Fields, List.mem_map] at hf
    obtain ⟨l, hl, rfl⟩ := hf
    exact fieldsAux_ne_nil _ _ l hl
  split
  · rename_i f0 f1 f2 f3 f4 f5 heq
    have h0 := hne f0 (by rw [heq]; simp)
    cases hd : f0.data with
    | nil => exact absurd hd h0
    | cons ch rest =>
      simp [atoi_value]
  · rfl

/-- The loop of parseBoxFile appends the boxes of the lines of six fields, in order. -/
theorem parseBoxLoop_eq (lines : List String) (boxes : List Box) :
    parseBoxLoop lines boxes =
      .ret (boxes ++ lines.filterMap (specBoxLine saturatedInt)) none := by
  induction lines generalizing boxes with
  | nil => simp [parseBoxLoop]
  | cons line lines ih =>
    rw [parseBoxLoop, parseBoxLine_eq]
    cases h : specBoxLine saturatedInt line with
    | none => simp [ih, List.filterMap_cons, h]
    | some b => simp [ih, List.filterMap_cons, h]

/-- A reversed string has the same number of bytes. -/
theorem byteLen_reverse (l : List Char) : byteLen l.reverse = byteLen l := by
  simp [byteLen, List.sum_reverse]

/-- The box of a line does not depend on a carriage return at its end. -/
theorem specBoxLine_dropCR (intOf : String → Int) (l : List Char) :
    specBoxLine intOf (String.mk (dropCR l)) = specBoxLine intOf (String.mk l) := by
  simp only [specBoxLine, strings.Fields, fieldsAux_dropCR]

/-- An empty line gives no box. -/
theorem specBoxLine_empty (intOf : String → Int) : specBoxLine intOf (String.mk []) = none := by
  rfl

/-- When every line fits the buffer the scanner ends without error, and its tokens give the boxes of the lines between the newlines. -/
theorem scanLines_eq_split (intOf : String → Int) (content cur : List Char)
    (h : ∀ l ∈ splitAux '\n' content cur, byteLen l < MaxScanTokenSize) :
    (scanLinesAux content cur).2 = false ∧
    (scanLinesAux content cur).1.filterMap (fun l => specBoxLine intOf (String.mk l))
      = (splitAux '\n' content cur).filterMap (fun l => specBoxLine intOf (String.mk l)) := by
  induction content generalizing cur with
  | nil =>
    have hc := h cur.reverse (by simp [splitAux])
    rw [byteLen_reverse] at hc
    simp only [scanLinesAux, splitAux]
    by_cases he : cur.isEmpty = true
    · have : cur = [] := by simpa using he
      subst this
      have h0 : specBoxLine intOf "" = none := rfl
      simp [h0]
    · have hlt : ¬ (byteLen cur ≥ MaxScanTokenSize) := by omega
      simp only [he, hlt, if_false, Bool.false_eq_true, true_and]
      rw [List.filterMap_cons, List.filterMap_cons, specBoxLine_dropCR]
  | cons c cs ih =>
    simp only [scanLinesAux, splitAux]
    by_cases hc : c = '\n'
    · simp only [hc, if_true] at h ⊢
      simp only [splitAux, if_true, List.mem_cons, forall_eq_or_imp] at h
      have hlen := h.1
      rw [byteLen_reverse] at hlen
      have hlt : ¬ (byteLen cur ≥ MaxScanTokenSize) := by omega
      obtain ⟨h1, h2⟩ := ih [] h.2
      simp only [hlt, if_false]
      exact ⟨h1, by simp [List.filterMap_cons, specBoxLine_dropCR, h2]⟩
    · simp only [hc, if_false] at h ⊢
      simp only [splitAux, hc, if_false] at h
      exact ih (c :: cur) h

/-- The scanner reading a run of the letter a. -/
theorem scanLines_replicate (n : Nat) (rest cur : List Char) :
    scanLinesAux (List.replicate n 'a' ++ rest) cur
      = scanLinesAux rest (List.replicate n 'a' ++ cur) := by
  induction n generalizing cur with
  | zero => rfl
  | succ n ih =>
    have hne : ¬ ('a' = '\n') := by decide
    rw [List.replicate_succ, List.cons_append, scanLinesAux, if_neg hne, ih]
    congr 1
    rw [← List.replicate_succ, List.replicate_succ', List.append_assoc]
    rfl

/-- A first line of 65536 bytes or more ends the scan with no box and the error of the scanner. -/
theorem parseBoxContent_long_line (n : Nat) (rest : List Char) (hn : MaxScanTokenSize ≤ n) :
    parseBoxContent (String.mk (List.replicate n 'a' ++ '\n' :: rest))
      = .ret [] (some (.external "bufio.Scanner: token too long")) := by
  have hb : byteLen (List.replicate n 'a' ++ []) = n := by
    have h1 : utf8Len 'a' = 1 := by decide
    simp [byteLen, h1]
  have hs : scanLinesAux (List.replicate n 'a' ++ '\n' :: rest) [] = ([], true) := by
    rw [scanLines_replicate, scanLinesAux, if_pos rfl, hb, if_pos hn]
  simp only [parseBoxContent, hs]
  rfl

/-- Splitting on newlines, reading a run of the letter a. -/
theorem splitAux_replicate (n : Nat) (rest cur : List Char) :
    splitAux '\n' (List.replicate n 'a' ++ rest) cur
      = splitAux '\n' rest (List.replicate n 'a' ++ cur) := by
  induction n generalizing cur with
  | zero => rfl
  | succ n ih =>
    have hne : ¬ ('a' = '\n') := by decide
    rw [List.replicate_succ, List.cons_append, splitAux, if_neg hne, ih]
    congr 1
    rw [← List.replicate_succ, List.replicate_succ', List.append_assoc]
    rfl

/-- A run of the letter a holds at most one field. -/
theorem fieldsAux_replicate (n : Nat) (cur : List Char) :
    (fieldsAux (List.replicate n 'a') cur).length ≤ 1 := by
  induction n generalizing cur with
  | zero =>
    simp only [List.replicate_zero, fieldsAux]
    split <;> simp
  | succ n ih =>
    have hns : unicode.IsSpace 'a' = false := by decide
    rw [List.replicate_succ, fieldsAux]
    simp only [hns, Bool.false_eq_true, if_false]
    exact ih _

/-- A line gives a box exactly when it has six fields. -/
theorem specBoxLine_isSome (intOf : String → Int) (line : String) :
    (specBoxLine intOf line).isSome = decide ((strings.Fields line).length = 6) := by
  unfold specBoxLine
  split
  · rename_i heq
    simp [heq]
  · rename_i hno
    have : (strings.Fields line).length ≠ 6 := by
      intro hlen
      rcases hf : strings.Fields line with _ | ⟨a, _ | ⟨b, _ | ⟨c, _ | ⟨d, _ | ⟨e, _ | ⟨g, _ | ⟨x, xs⟩⟩⟩⟩⟩⟩⟩
        <;> rw [hf] at hlen <;> simp at hlen
      exact hno a b c d e g hf
    simp [this]

/-- A first line made of the letter a alone gives no box. -/
theorem specBoxes_long_line (intOf : String → Int) (n : Nat) (rest : List Char) :
    specBoxes intOf (String.mk (List.replicate n 'a' ++ '\n' :: rest))
      = specBoxes intOf (String.mk rest) := by
  have hnone : specBoxLine intOf (String.mk (List.replicate n 'a' ++ [])) = none := by
    have h1 := specBoxLine_isSome intOf (String.mk (List.replicate n 'a' ++ []))
    have h2 := fieldsAux_replicate n []
    have h3 : (strings.Fields (String.mk (List.replicate n 'a' ++ []))).length ≠ 6 := by
      simp only [strings.Fields, List.length_map, List.append_nil]
      omega
    rw [decide_eq_false h3] at h1
    cases hsp : specBoxLine intOf (String.mk (List.replicate n 'a' ++ [])) with
    | none => rfl
    | some b => rw [hsp] at h1; exact absurd h1 (by simp)
  simp only [specBoxes]
  rw [splitAux_replicate, splitAux, if_pos rfl, List.filterMap_cons]
  have hrev : (List.replicate n 'a' ++ ([] : List Char)).reverse = List.replicate n 'a' ++ [] := by
    simp
  rw [hrev, hnone]

/-- There are as many boxes as lines that give one. -/
theorem length_filterMap_eq (g : List Char → Option Box) (l : List (List Char)) :
    (l.filterMap g).length = (l.filter (fun x => (g x).isSome)).length := by
  induction l with
  | nil => rfl
  | cons x xs ih =>
    rw [List.filterMap_cons, List.filter_cons]
    cases h : g x <;> simp [ih]

/-- Where the digits after the sign stay below the 63rd power of two, the saturated value of a field is the integer of the claim. -/
theorem saturatedInt_eq_specInt (f : String)
    (h : decimalValue ((signBody f.data).takeWhile isDigit) < 2 ^ 63) :
    saturatedInt f = specInt f := by
  have hmax : maxUint64 = 18446744073709551615 := by decide
  unfold saturatedInt specInt isNumeral
  simp only
  have h1 : ¬ (decimalValue ((signBody f.data).takeWhile isDigit) > maxUint64) := by
    rw [hmax]; omega
  rw [if_neg h1]
  by_cases h2 : signBody f.data = [] ∨ (signBody f.data).takeWhile isDigit ≠ signBody f.data
  · rw [if_pos h2]
    have : (!(signBody f.data).isEmpty && (signBody f.data).all isDigit) = false := by
      rcases h2 with h2 | h2
      · simp [h2]
      · rw [Bool.and_eq_false_iff]
        right
        rw [List.all_eq_false]
        by_contra hall
        apply h2
        rw [List.takeWhile_eq_self_iff]
        intro x hx
        by_contra hnx
        exact hall ⟨x, hx, hnx⟩
    simp [this]
  · rw [if_neg h2]
    simp only [not_or, not_not] at h2
    obtain ⟨hne, hall⟩ := h2
    rw [hall] at h
    have hnum : (!(signBody f.data).isEmpty && (signBody f.data).all isDigit) = true := by
      rw [Bool.and_eq_true]
      constructor
      · cases hb : signBody f.data with
        | nil => exact absurd hb hne
        | cons x xs => rfl
      · rw [List.all_eq_true]
        exact List.takeWhile_eq_self_iff.mp hall
    rw [hnum, if_pos rfl]
    unfold intValue
    by_cases hneg : f.data.head? = some '-'
    · have hb : signBody f.data = f.data.tail := by simp [signBody, hneg]
      rw [if_pos hneg, if_pos hneg, ← hb, max_eq_right]
      simp only [minInt64]
      push_cast
      omega
    · rw [if_neg hneg, if_neg hneg, min_eq_right]
      · by_cases hpos : f.data.head? = some '+'
        · have hb : signBody f.data = f.data.tail := by simp [signBody, hpos]
          rw [if_pos hpos, hb]
        · have hb : signBody f.data = f.data := by simp [signBody, hneg, hpos]
          rw [if_neg hpos, hb]
      · simp only [maxInt64]
        push_cast
        omega

/-! ### The lines of the language listing -/

/-- Replacing changes nothing in a text without a carriage return before a newline. -/
theorem replaceCRLF_of_not_contains (l : List Char) (h : containsCRLF l = false) :
    replaceCRLF l = l := by
  induction l using replaceCRLF.induct with
  | case1 => rfl
  | case2 c => rfl
  | case3 c d cs hcd ih =>
    simp [containsCRLF, hcd.1, hcd.2] at h
  | case4 c d cs hcd ih =>
    simp only [containsCRLF, Bool.or_eq_false_iff] at h
    rw [replaceCRLF, if_neg hcd, ih h.2]

/-- Splitting on newlines after the replacement gives the lines of the specification. -/
theorem splitAux_replaceCRLF (l : List Char) :
    ∀ cur, splitAux '\n' (replaceCRLF l) cur = specLines l cur := by
  induction l using replaceCRLF.induct with
  | case1 => intro cur; rfl
  | case2 c =>
    intro cur
    simp only [replaceCRLF, splitAux, specLines]
    split <;> simp
  | case3 c d cs hcd ih =>
    intro cur
    have hc : ¬ (c = '\n') := by rw [hcd.1]; decide
    rw [replaceCRLF, if_pos hcd, splitAux, if_pos rfl, specLines, if_neg hc, if_pos hcd, ih]
  | case4 c d cs hcd ih =>
    intro cur
    rw [replaceCRLF, if_neg hcd, splitAux, specLines]
    by_cases hc : c = '\n'
    · rw [if_pos hc, if_pos hc, ih]
    · rw [if_neg hc, if_neg hc, if_neg hcd, ih]

/-- A string has a byte exactly when it is not empty. -/
theorem byteLen_pos_iff (l : List Char) : byteLen l > 0 ↔ l ≠ [] := by
  constructor
  · intro h hl
    subst hl
    simp [byteLen] at h
  · intro h
    have := length_le_byteLen l
    have : 0 < l.length := List.length_pos.mpr h
    omega

/-- The list GetAvailableLanguages builds from an output is the list of the specification. -/
theorem parseLanguages_eq (out : String) : parseLanguages out = specLanguages out := by
  have hdata : (if containsCRLF out.data then String.mk (replaceCRLF out.data) else out).data
      = replaceCRLF out.data := by
    by_cases h : containsCRLF out.data = true
    · rw [if_pos h]
    · rw [if_neg h]
      exact (replaceCRLF_of_not_contains _ (by simpa using h)).symm
  simp only [parseLanguages, specLanguages, strings.Split, hdata, splitAux_replaceCRLF]
  rw [← List.map_drop, List.filter_map]
  congr 1
  apply List.filter_congr
  intro x _
  simp only [Function.comp, decide_eq_decide]
  exact byteLen_pos_iff x

/-! ### The claims -/

/-- C1: with a non-nil image and an extension other than hocr, xml, tsv and pdf,
ImageToExtension returns the empty string and an error that wraps
ErrUnsupportedExtension, and leaves the world as it was (no temporary directory,
no language listing, no subprocess); each of the four listed extensions is found
in the table. -/
theorem ImageToExtension_unsupported (env : Env) (c : Client) (im : Image)
    (lang extension : String) (w : World) :
    (extension ∉ ["hocr", "xml", "tsv", "pdf"] →
      ∃ e, Client.ImageToExtension env c (some im) lang extension w = (.ret "" (some e), w) ∧
        errorsIs e .ErrUnsupportedExtension = true) ∧
    (extension ∈ ["hocr", "xml", "tsv", "pdf"] → (supportedExtensions extension).isSome = true) := by
  constructor
  · intro h
    simp only [List.mem_cons, List.mem_singleton, List.not_mem_nil, or_false, not_or] at h
    obtain ⟨h1, h2, h3, h4⟩ := h
    refine ⟨.wrap (Err.ErrUnsupportedExtension.Error ++ ": " ++ extension)
      .ErrUnsupportedExtension, ?_, ?_⟩
    · simp [Client.ImageToExtension, validateImageFormat, supportedExtensions, h1, h2, h3, h4]
    · simp [errorsIs]
  · intro h
    simp only [List.mem_cons, List.mem_singleton, List.not_mem_nil, or_false] at h
    rcases h with h | h | h | h <;> subst h <;> decide

/-- Witness of C1 at the extension "invalid" and at the extension "pdf". -/
theorem ImageToExtension_unsupported_witness :
    ("invalid" ∉ ["hocr", "xml", "tsv", "pdf"] ∧
      ∃ e, Client.ImageToExtension sampleEnv sampleClient (some sampleImage) "eng" "invalid"
          sampleWorld = (.ret "" (some e), sampleWorld) ∧
        errorsIs e .ErrUnsupportedExtension = true) ∧
    ("pdf" ∈ ["hocr", "xml", "tsv", "pdf"] ∧ (supportedExtensions "pdf").isSome = true) :=
  ⟨⟨by decide, (ImageToExtension_unsupported sampleEnv sampleClient sampleImage "eng" "invalid"
      sampleWorld).1 (by decide)⟩,
   ⟨by decide, (ImageToExtension_unsupported sampleEnv sampleClient sampleImage "eng" "pdf"
      sampleWorld).2 (by decide)⟩⟩

/-- C2: called with a nil image, each of ImageToString, ImageToOutput,
ImageToFile and ImageToExtension returns the error "nil image" and leaves the
world as it was: no temporary directory is created and no subprocess is run. -/
theorem nil_image_rejected (env : Env) (c : Client) (lang outputFile extension : String)
    (outputType : OutputType) (w : World) :
    Client.ImageToString env c none lang w = (.ret "" (some (.new "nil image")), w) ∧
    Client.ImageToOutput env c none lang outputType w
      = (.ret (.str "") (some (.new "nil image")), w) ∧
    Client.ImageToFile env c none lang outputFile w = (.ret () (some (.new "nil image")), w) ∧
    Client.ImageToExtension env c none lang extension w
      = (.ret "" (some (.new "nil image")), w) := by
  simp [Client.ImageToString, Client.ImageToOutput, Client.ImageToFile,
    Client.ImageToExtension, validateImageFormat]

/-- C3 (what the code does): ImageToString never asks the engine for its
languages and never returns ErrLanguageNotFound.  With the languages eng and osd
installed and the language "invalid" requested, the engine is run, exits with
code 1, and the error returned is the OCRError of that exit. -/
theorem ImageToString_unknown_language :
    (∀ (env : Env) (c : Client) (img : Option Image) (lang : String) (w : World) (v : String),
      (Client.ImageToString env c img lang w).1 ≠ .ret v (some .ErrLanguageNotFound)) ∧
    (GetAvailableLanguages sampleEnv sampleWorld).1 = .ok ["eng", "osd"] ∧
    (validateLanguage sampleEnv "invalid" sampleWorld).1 = some .ErrLanguageNotFound ∧
    Client.ImageToString sampleEnv sampleClient (some sampleImage) "invalid" sampleWorld
      = (.ret "" (some (.ocr ⟨1, "Error opening data file invalid.traineddata\n"⟩)),
         { TesseractCmd := "tesseract",
           trace := [.mkdirTemp, .createFile "/tmp/tesseract_0/input.png",
             .writeFile "/tmp/tesseract_0/input.png",
             .exec "tesseract" ["/tmp/tesseract_0/input.png", "stdout", "-l", "invalid"],
             .removeAll "/tmp/tesseract_0"] }) := by
  refine ⟨?_, rfl, rfl, by decide⟩
  intro env c img lang w v h
  have := ImageToString_err env c img lang w v _ h
  simp [Err.isSentinel] at this

/-- C4 (what the code does): when the configured path is not empty, does not
exist and is not found on PATH, NewClient returns a nil client, leaves
TesseractCmd as it was, and returns a fresh error "tesseract binary not found",
for which IsNotFound is false. -/
theorem NewClient_missing_binary (env : Env) (cfg : Config) (w : World)
    (hne : cfg.TesseractPath ≠ "") (hstat : env.statOk cfg.TesseractPath = false)
    (hlook : filepathIsAbs cfg.TesseractPath = true ∨ env.lookPath cfg.TesseractPath = none) :
    ∃ w1, NewClient env cfg w = ((none, some (.new "tesseract binary not found")), w1) ∧
      w1.TesseractCmd = w.TesseractCmd ∧
      IsNotFound (some (.new "tesseract binary not found")) = false := by
  unfold NewClient SetTesseractCmd
  simp only [hne, hstat, ne_eq, not_false_eq_true, if_true, Bool.false_eq_true, if_false]
  rcases hlook with h | h
  · simp [h, World.emit, IsNotFound]
  · by_cases ha : filepathIsAbs cfg.TesseractPath = true
    · simp [ha, World.emit, IsNotFound]
    · simp [ha, h, World.emit, IsNotFound]

/-- Witness of C4 at the path "/invalid/path" of the package's test. -/
theorem NewClient_missing_binary_witness :
    ("/invalid/path" ≠ "" ∧ sampleEnv.statOk "/invalid/path" = false ∧
      (filepathIsAbs "/invalid/path" = true ∨ sampleEnv.lookPath "/invalid/path" = none)) ∧
    ∃ w1, NewClient sampleEnv { sampleClient.config with TesseractPath := "/invalid/path" }
        sampleWorld = ((none, some (.new "tesseract binary not found")), w1) ∧
      w1.TesseractCmd = sampleWorld.TesseractCmd ∧
      IsNotFound (some (.new "tesseract binary not found")) = false :=
  ⟨⟨by decide, by decide, Or.inl (by decide)⟩,
   NewClient_missing_binary sampleEnv { sampleClient.config with TesseractPath := "/invalid/path" }
     sampleWorld (by decide) (by decide) (Or.inl (by decide))⟩

/-- C5 (what the code does): no error returned by ImageToString, ImageToOutput,
ImageToFile or ImageToExtension satisfies IsTimeout, whatever happens to the
subprocess.  When the subprocess is killed at the deadline, ImageToString
returns the OCRError with code -1 and IsTimeout is false on it. -/
theorem timeout_not_reported :
    (∀ (env : Env) (c : Client) (img : Option Image) (lang outputFile extension : String)
        (outputType : OutputType) (w : World),
      IsTimeout (Client.ImageToString env c img lang w).1.err = false ∧
      IsTimeout (Client.ImageToOutput env c img lang outputType w).1.err = false ∧
      IsTimeout (Client.ImageToFile env c img lang outputFile w).1.err = false ∧
      IsTimeout (Client.ImageToExtension env c img lang extension w).1.err = false) ∧
    (0 < sampleClient.config.Timeout ∧
      slowEnv.subprocess "tesseract" ["/tmp/tesseract_0/input.png", "stdout", "-l", "eng"]
        sampleClient.context = .killed "" "" ∧
      (Client.ImageToString slowEnv sampleClient (some sampleImage) "eng" sampleWorld).1
        = .ret "" (some (.ocr { Code := -1, Stderr := "" })) ∧
      IsTimeout (some (.ocr { Code := -1, Stderr := "" })) = false) := by
  refine ⟨?_, by decide, by decide, by decide, by decide⟩
  intro env c img lang outputFile extension outputType w
  refine ⟨?_, ?_, ?_, ?_⟩
  · cases h : (Client.ImageToString env c img lang w).1 with
    | panic m => simp [Ret.err, IsTimeout]
    | ret v e =>
      cases e with
      | none => simp [Ret.err, IsTimeout]
      | some e =>
        have := ImageToString_err env c img lang w v e h
        cases e <;> simp_all [Ret.err, IsTimeout, Err.isSentinel]
  · cases h : (Client.ImageToOutput env c img lang outputType w).1 with
    | panic m => simp [Ret.err, IsTimeout]
    | ret v e =>
      cases e with
      | none => simp [Ret.err, IsTimeout]
      | some e =>
        have := ImageToOutput_err env c img lang outputType w v e h
        cases e <;> simp_all [Ret.err, IsTimeout, Err.isSentinel]
  · cases h : (Client.ImageToFile env c img lang outputFile w).1 with
    | panic m => simp [Ret.err, IsTimeout]
    | ret v e =>
      cases e with
      | none => simp [Ret.err, IsTimeout]
      | some e =>
        have := ImageToFile_err env c img lang outputFile w v e h
        cases e <;> simp_all [Ret.err, IsTimeout, Err.isSentinel]
  · cases h : (Client.ImageToExtension env c img lang extension w).1 with
    | panic m => simp [Ret.err, IsTimeout]
    | ret v e =>
      cases e with
      | none => simp [Ret.err, IsTimeout]
      | some e =>
        have := ImageToExtension_err env c img lang extension w v e h
        cases e <;> simp_all [Ret.err, IsTimeout, Err.isSentinel]

/-- C6: when the temporary directory and the image file are made and the
subprocess exits with a code c other than 0 and captured stderr s, runOCR
returns the OCRError with Code = c and Stderr = s.  For every OCRError e the
text e.Error() is "tesseract error (code ", the decimal numeral of e.Code,
"): " and a message m, where m is e.Stderr with the white space cut from both
ends, or "unknown error" when nothing is left; the message is never empty. -/
theorem OCRError_reports_exit (env : Env) (ctx : Context) (im : Image) (lang : String)
    (args : List String) (w : World) (dir out s : String) (c : Nat) (e : OCRError) :
    (env.mkdirTemp (mkdirCount w) = .ok dir →
      env.createFile (filepathJoin dir "input.png") = none →
      env.pngEncode im = none →
      env.writeFile (filepathJoin dir "input.png") = none →
      env.subprocess w.TesseractCmd
        (if lang ≠ "" then [filepathJoin dir "input.png"] ++ args ++ ["-l", lang]
          else [filepathJoin dir "input.png"] ++ args) ctx = .exited c out s →
      c ≠ 0 →
      (runOCR env ctx (some im) lang args w).1
        = .ret "" (some (.ocr { Code := c, Stderr := s }))) ∧
    (∃ m : String,
      e.Error = "tesseract error (code " ++ fmtInt e.Code ++ "): " ++ m ∧
      m = (if strings.TrimSpace e.Stderr = "" then "unknown error"
            else strings.TrimSpace e.Stderr) ∧
      m ≠ "" ∧
      intValue (fmtInt e.Code).data = e.Code ∧
      ∃ a r, e.Stderr.data = a ++ (strings.TrimSpace e.Stderr).data ++ r ∧
        (∀ x ∈ a, unicode.IsSpace x = true) ∧ (∀ x ∈ r, unicode.IsSpace x = true) ∧
        (∀ x, (strings.TrimSpace e.Stderr).data.head? = some x → unicode.IsSpace x = false) ∧
        (∀ x, (strings.TrimSpace e.Stderr).data.getLast? = some x →
          unicode.IsSpace x = false)) := by
  constructor
  · intro hdir hcreate hpng hwrite hproc hc
    exact runOCR_exit_error env ctx im lang args w dir out s c hdir hcreate hpng hwrite hproc hc
  · refine ⟨_, rfl, rfl, ?_, fmtInt_value e.Code, trimSpaceChars_spec e.Stderr.data⟩
    split
    · decide
    · assumption

/-- Witness of C6: the sample engine exits with code 1 on the language
"invalid". -/
theorem OCRError_reports_exit_witness :
    (sampleEnv.mkdirTemp (mkdirCount sampleWorld) = .ok "/tmp/tesseract_0" ∧
      sampleEnv.createFile (filepathJoin "/tmp/tesseract_0" "input.png") = none ∧
      sampleEnv.pngEncode sampleImage = none ∧
      sampleEnv.writeFile (filepathJoin "/tmp/tesseract_0" "input.png") = none ∧
      sampleEnv.subprocess sampleWorld.TesseractCmd
        (if "invalid" ≠ "" then
          [filepathJoin "/tmp/tesseract_0" "input.png"] ++ ["stdout"] ++ ["-l", "invalid"]
          else [filepathJoin "/tmp/tesseract_0" "input.png"] ++ ["stdout"]) none
        = .exited 1 "" "Error opening data file invalid.traineddata\n" ∧
      1 ≠ 0) ∧
    (runOCR sampleEnv none (some sampleImage) "invalid" ["stdout"] sampleWorld).1
      = .ret "" (some (.ocr ⟨1, "Error opening data file invalid.traineddata\n"⟩)) :=
  ⟨⟨rfl, rfl, rfl, rfl, rfl, by decide⟩,
   (OCRError_reports_exit sampleEnv none sampleImage "invalid" ["stdout"] sampleWorld
      "/tmp/tesseract_0" "" "Error opening data file invalid.traineddata\n" 1
      ⟨1, ""⟩).1 rfl rfl rfl rfl rfl (by decide)⟩

/-- C7 as stated fails: a data row with fewer fields than the header leaves
columns of different lengths, and a header name that occurs twice gets two
entries from each row. -/
theorem parseTSV_not_parallel :
    parseTSV "a\tb\n1\n3\t4" = [("a", ["1", "3"]), ("b", ["4"])] ∧
    parseTSV "a\ta\n1\t2" = [("a", ["1", "2"])] ∧
    ¬ (∀ (data k : String) (v : List String),
        (k, v) ∈ parseTSV data → v.length = (tsvRows data).length) := by
  refine ⟨by decide, by decide, ?_⟩
  intro h
  exact absurd (h "a\tb\n1\n3\t4" "b" ["4"] (by decide)) (by decide)

/-- C7 as amended: when the header names are pairwise distinct and every data
row has at least as many tab-separated fields as the header, the table is a set
of parallel columns: every list has as many entries as there are data rows, the
column keyed by the i-th header holds the i-th field of each row in row order,
and (when there is a data row) the keys are the header names. -/
theorem parseTSV_parallel_columns (data : String)
    (hn : (tsvHeaders data).Nodup)
    (hrows : ∀ row ∈ tsvRows data, (tsvHeaders data).length ≤ (strings.Split row '\t').length) :
    (∀ (k : String) (v : List String),
      (k, v) ∈ parseTSV data → v.length = (tsvRows data).length) ∧
    (∀ (i : Nat) (hi : i < (tsvHeaders data).length),
      (parseTSV data).get ((tsvHeaders data).get ⟨i, hi⟩)
        = (tsvRows data).map (fun row => (strings.Split row '\t').getD i "")) ∧
    (tsvRows data ≠ [] → (parseTSV data).map Prod.fst = tsvHeaders data) := by
  by_cases hlen : (strings.Split (strings.TrimSpace data) '\n').length < 2
  · have hp : parseTSV data = [] := by simp [parseTSV, hlen]
    have hr : tsvRows data = [] := by
      unfold tsvRows
      apply List.drop_eq_nil_of_le
      omega
    rw [hp, hr]
    simp [Table.get]
  · have hinit := headers_init [] (tsvHeaders data) (by simpa using hn)
    have hz : (tsvHeaders data).map (fun h => (h, ([] : List String)))
        = List.zip (tsvHeaders data) (List.replicate (tsvHeaders data).length []) := by
      generalize tsvHeaders data = hs
      induction hs with
      | nil => rfl
      | cons h hs ih => simp [List.replicate_succ, ih]
    obtain ⟨cs1, h1, h2, h3⟩ := parseTSV_fold (tsvHeaders data) hn
      (fun row => strings.Split row '\t') (tsvRows data) hrows
      (List.replicate (tsvHeaders data).length []) (by simp)
    have hp : parseTSV data = List.zip (tsvHeaders data) cs1 := by
      rw [← h1, ← hz]
      simp only [parseTSV, hlen, if_false]
      simp only [List.map_nil, List.nil_append] at hinit
      rw [← hinit]
      rfl
    have hcol : ∀ j, j < (tsvHeaders data).length → cs1[j]?.getD []
        = (tsvRows data).map (fun row => (strings.Split row '\t').getD j "") := by
      intro j hj
      rw [h3 j hj]
      simp [hj]
    rw [hp]
    refine ⟨?_, ?_, ?_⟩
    · intro k v hkv
      obtain ⟨j, hj, hget⟩ := List.getElem_of_mem hkv
      have hj1 : j < (tsvHeaders data).length := by
        simp only [List.length_zip] at hj; omega
      have hj2 : j < cs1.length := by omega
      have hv : v = cs1[j] := by
        simp only [List.getElem_zip] at hget
        exact (congrArg Prod.snd hget).symm
      have := hcol j hj1
      rw [List.getElem?_eq_getElem hj2] at this
      simp only [Option.getD_some] at this
      rw [hv, this, List.length_map]
    · intro i hi
      rw [Table.get_zip _ hn cs1 h2 i hi, hcol i hi]
    · intro _
      exact List.map_fst_zip _ _ (by omega)

/-- Witness of C7 as amended on a table of two columns and two rows. -/
theorem parseTSV_parallel_columns_witness :
    ((tsvHeaders "a\tb\n1\t2\n3\t4\n").Nodup ∧
      ∀ row ∈ tsvRows "a\tb\n1\t2\n3\t4\n",
        (tsvHeaders "a\tb\n1\t2\n3\t4\n").length ≤ (strings.Split row '\t').length) ∧
    ((∀ (k : String) (v : List String), (k, v) ∈ parseTSV "a\tb\n1\t2\n3\t4\n" →
        v.length = (tsvRows "a\tb\n1\t2\n3\t4\n").length) ∧
      (∀ (i : Nat) (hi : i < (tsvHeaders "a\tb\n1\t2\n3\t4\n").length),
        (parseTSV "a\tb\n1\t2\n3\t4\n").get ((tsvHeaders "a\tb\n1\t2\n3\t4\n").get ⟨i, hi⟩)
          = (tsvRows "a\tb\n1\t2\n3\t4\n").map
              (fun row => (strings.Split row '\t').getD i "")) ∧
      (tsvRows "a\tb\n1\t2\n3\t4\n" ≠ [] →
        (parseTSV "a\tb\n1\t2\n3\t4\n").map Prod.fst = tsvHeaders "a\tb\n1\t2\n3\t4\n")) :=
  ⟨⟨by decide, by decide⟩,
   parseTSV_parallel_columns "a\tb\n1\t2\n3\t4\n" (by decide) (by decide)⟩

/-- C8 as stated fails: with eng and osd installed and the language "invalid"
requested, ImageToExtension with the unsupported extension "doc" fails with the
wrapped ErrUnsupportedExtension before any language is looked at, and
ImageToBoxes fails with the error of the temporary directory when none can be
made. -/
theorem language_check_not_first :
    (GetAvailableLanguages sampleEnv sampleWorld).1 = .ok ["eng", "osd"] ∧
    (GetAvailableLanguages fullDiskEnv sampleWorld).1 = .ok ["eng", "osd"] ∧
    "invalid" ≠ "" ∧ "invalid" ∉ ["eng", "osd"] ∧
    Client.ImageToExtension sampleEnv sampleClient (some sampleImage) "invalid" "doc" sampleWorld
      = (.ret "" (some (.wrap "unsupported output extension: doc" .ErrUnsupportedExtension)),
         sampleWorld) ∧
    (Client.ImageToBoxes fullDiskEnv sampleClient (some sampleImage) "invalid" sampleWorld).1
      = .ret [] (some (.wrap "failed to create temp directory: no space left on device"
          (.external "no space left on device"))) ∧
    ¬ (∀ (env : Env) (c : Client) (img : Option Image) (lang extension : String) (w : World)
        (L : List String),
        (GetAvailableLanguages env w).1 = .ok L → lang ≠ "" → lang ∉ L →
        (Client.ImageToExtension env c img lang extension w).1.err
          = some .ErrLanguageNotFound) := by
  refine ⟨rfl, rfl, by decide, by decide, by decide, by decide, ?_⟩
  intro h
  have := h sampleEnv sampleClient (some sampleImage) "invalid" "doc" sampleWorld ["eng", "osd"]
    rfl (by decide) (by decide)
  revert this
  decide

/-- C8 as amended: when listing the languages succeeds with list L,
validateLanguage returns nil exactly when the language is in L and
ErrLanguageNotFound otherwise; when listing fails it returns
ErrTesseractNotFound.  With a language that is not empty and not in L,
ImageToExtension (non-nil image, supported extension, temporary directory made)
and ImageToBoxes (temporary directory made, image saved) return
ErrLanguageNotFound, and the only subprocess run is the listing. -/
theorem validateLanguage_spec (env : Env) (lang : String) (w : World) (L : List String) :
    ((GetAvailableLanguages env w).1 = .ok L →
      ((validateLanguage env lang w).1 = none ↔ lang ∈ L) ∧
      (lang ∉ L → (validateLanguage env lang w).1 = some .ErrLanguageNotFound)) ∧
    (∀ e, (GetAvailableLanguages env w).1 = .error e →
      (validateLanguage env lang w).1 = some .ErrTesseractNotFound) ∧
    (∀ (c : Client) (im : Image) (extension dir : String),
      (GetAvailableLanguages env w).1 = .ok L → lang ≠ "" → lang ∉ L →
      (supportedExtensions extension).isSome = true →
      env.mkdirTemp (mkdirCount w) = .ok dir →
      Client.ImageToExtension env c (some im) lang extension w
        = (.ret "" (some .ErrLanguageNotFound),
           { TesseractCmd := w.TesseractCmd,
             trace := w.trace ++ [.mkdirTemp, .exec w.TesseractCmd ["--list-langs"],
               .removeAll dir] })) ∧
    (∀ (c : Client) (im : Image) (dir : String),
      (GetAvailableLanguages env w).1 = .ok L → lang ≠ "" → lang ∉ L →
      env.mkdirTemp (mkdirCount w) = .ok dir →
      env.createFile (filepathJoin dir "input.png") = none →
      env.pngEncode im = none →
      env.writeFile (filepathJoin dir "input.png") = none →
      Client.ImageToBoxes env c (some im) lang w
        = (.ret [] (some .ErrLanguageNotFound),
           { TesseractCmd := w.TesseractCmd,
             trace := w.trace ++ [.mkdirTemp, .createFile (filepathJoin dir "input.png"),
               .writeFile (filepathJoin dir "input.png"),
               .exec w.TesseractCmd ["--list-langs"], .removeAll dir] })) := by
  refine ⟨?_, ?_, ?_, ?_⟩
  · intro h
    rw [validateLanguage_ok env lang w L h]
    by_cases hm : lang ∈ L <;> simp [hm]
  · intro e h
    exact validateLanguage_error env lang w e h
  · intro c im extension dir hL hne hnot hext hdir
    obtain ⟨x, hx⟩ := Option.isSome_iff_exists.mp hext
    have hL1 : (GetAvailableLanguages env (w.emit .mkdirTemp)).1 = .ok L :=
      (GetAvailableLanguages_congr env (w.emit .mkdirTemp) w rfl).trans hL
    simp only [Client.ImageToExtension, validateImageFormat, hx, createTempDir, hdir, hne,
      ne_eq, not_false_eq_true, if_true, validateLanguage_ok env lang _ L hL1, hnot, if_false]
    simp [World.emit]
  · intro c im dir hL hne hnot hdir hcreate hpng hwrite
    have hL1 : (GetAvailableLanguages env
        (((w.emit .mkdirTemp).emit (.createFile (filepathJoin dir "input.png"))).emit
          (.writeFile (filepathJoin dir "input.png")))).1 = .ok L :=
      (GetAvailableLanguages_congr env
        (((w.emit .mkdirTemp).emit (.createFile (filepathJoin dir "input.png"))).emit
          (.writeFile (filepathJoin dir "input.png"))) w rfl).trans hL
    simp only [Client.ImageToBoxes, createTempDir, hdir, saveImage, hcreate, hpng, hwrite, hne,
      ne_eq, not_false_eq_true, if_true, validateLanguage_ok env lang _ L hL1, hnot, if_false]
    simp [World.emit]

/-- Witness of C8 as amended: the sample engine has eng and osd; "eng" passes
and "invalid" is turned down before any OCR run. -/
theorem validateLanguage_spec_witness :
    ((GetAvailableLanguages sampleEnv sampleWorld).1 = .ok ["eng", "osd"] ∧
      "invalid" ≠ "" ∧ "invalid" ∉ ["eng", "osd"] ∧
      (supportedExtensions "pdf").isSome = true ∧
      sampleEnv.mkdirTemp (mkdirCount sampleWorld) = .ok "/tmp/tesseract_0" ∧
      sampleEnv.createFile (filepathJoin "/tmp/tesseract_0" "input.png") = none ∧
      sampleEnv.pngEncode sampleImage = none ∧
      sampleEnv.writeFile (filepathJoin "/tmp/tesseract_0" "input.png") = none) ∧
    (((validateLanguage sampleEnv "invalid" sampleWorld).1 = none ↔ "invalid" ∈ ["eng", "osd"]) ∧
      ("invalid" ∉ ["eng", "osd"] →
        (validateLanguage sampleEnv "invalid" sampleWorld).1 = some .ErrLanguageNotFound)) ∧
    Client.ImageToExtension sampleEnv sampleClient (some sampleImage) "invalid" "pdf" sampleWorld
      = (.ret "" (some .ErrLanguageNotFound),
         { TesseractCmd := "tesseract",
           trace := [] ++ [.mkdirTemp, .exec "tesseract" ["--list-langs"],
             .removeAll "/tmp/tesseract_0"] }) ∧
    Client.ImageToBoxes sampleEnv sampleClient (some sampleImage) "invalid" sampleWorld
      = (.ret [] (some .ErrLanguageNotFound),
         { TesseractCmd := "tesseract",
           trace := [] ++ [.mkdirTemp, .createFile (filepathJoin "/tmp/tesseract_0" "input.png"),
             .writeFile (filepathJoin "/tmp/tesseract_0" "input.png"),
             .exec "tesseract" ["--list-langs"], .removeAll "/tmp/tesseract_0"] }) :=
  ⟨⟨rfl, by decide, by decide, by decide, rfl, rfl, rfl, rfl⟩,
   (validateLanguage_spec sampleEnv "invalid" sampleWorld ["eng", "osd"]).1 rfl,
   (validateLanguage_spec sampleEnv "invalid" sampleWorld ["eng", "osd"]).2.2.1 sampleClient
     sampleImage "pdf" "/tmp/tesseract_0" rfl (by decide) (by decide) (by decide) rfl,
   (validateLanguage_spec sampleEnv "invalid" sampleWorld ["eng", "osd"]).2.2.2 sampleClient
     sampleImage "/tmp/tesseract_0" rfl (by decide) (by decide) rfl rfl rfl rfl⟩

/-- C9 as stated fails.  A sixth field "99999999999999999999x" is no integer,
yet Page is the largest int, not 0; a sixth field "9223372036854775808" gives
the largest int, not its decimal value; and after a first line of 65536 bytes
the scanner stops, so the six-field line that follows gives no box. -/
theorem parseBoxContent_not_as_claimed :
    parseBoxContent "a 1 2 3 4 99999999999999999999x"
      = .ret [⟨'a', 1, 2, 3, 4, 9223372036854775807⟩] none ∧
    specBoxes specInt "a 1 2 3 4 99999999999999999999x" = [⟨'a', 1, 2, 3, 4, 0⟩] ∧
    parseBoxContent "a 1 2 3 4 9223372036854775808"
      = .ret [⟨'a', 1, 2, 3, 4, 9223372036854775807⟩] none ∧
    specBoxes specInt "a 1 2 3 4 9223372036854775808"
      = [⟨'a', 1, 2, 3, 4, 9223372036854775808⟩] ∧
    parseBoxContent (String.mk (List.replicate 65536 'a' ++ '\n' :: "a 1 2 3 4 5".data))
      = .ret [] (some (.external "bufio.Scanner: token too long")) ∧
    specBoxes specInt (String.mk (List.replicate 65536 'a' ++ '\n' :: "a 1 2 3 4 5".data))
      = [⟨'a', 1, 2, 3, 4, 5⟩] ∧
    ¬ (∀ content : String, ∃ err,
        parseBoxContent content = .ret (specBoxes specInt content) err) := by
  have h1 : parseBoxContent "a 1 2 3 4 99999999999999999999x"
      = .ret [⟨'a', 1, 2, 3, 4, 9223372036854775807⟩] none := by decide
  have h2 : specBoxes specInt "a 1 2 3 4 99999999999999999999x" = [⟨'a', 1, 2, 3, 4, 0⟩] := by
    decide
  refine ⟨h1, h2, by decide, by decide,
    parseBoxContent_long_line 65536 _ (by decide), ?_, ?_⟩
  · rw [specBoxes_long_line]
    decide
  · intro h
    obtain ⟨err, he⟩ := h "a 1 2 3 4 99999999999999999999x"
    rw [h1, h2] at he
    simp at he

/-- C9 as amended.  The loop of parseBoxFile never panics.  When every line of
the content is shorter than 65536 bytes, it returns one Box per line of exactly
six white-space-separated fields, in file order, skipping every other line, and
no error: Char is the first rune of field 1 (no field is empty) and Left, Bottom,
Right, Top, Page are the saturated integers of fields 2 to 6; so there are as
many boxes as six-field lines.  The saturated integer of a field is the integer
of the original claim (decimal value of a numeral, 0 otherwise) whenever the
digits after the optional sign stay below 2^63. -/
theorem parseBoxContent_spec (content f : String) :
    (∃ boxes err, parseBoxContent content = .ret boxes err) ∧
    ((∀ l ∈ splitAux '\n' content.data [], byteLen l < MaxScanTokenSize) →
      parseBoxContent content = .ret (specBoxes saturatedInt content) none) ∧
    (specBoxes saturatedInt content).length
      = ((splitAux '\n' content.data []).filter
          (fun l => decide ((strings.Fields (String.mk l)).length = 6))).length ∧
    (∀ line : String, ∀ fld ∈ strings.Fields line, fld.data ≠ []) ∧
    (decimalValue ((signBody f.data).takeWhile isDigit) < 2 ^ 63 →
      saturatedInt f = specInt f) := by
  refine ⟨?_, ?_, ?_, ?_, saturatedInt_eq_specInt f⟩
  · simp only [parseBoxContent, parseBoxLoop_eq]
    exact ⟨_, _, rfl⟩
  · intro h
    obtain ⟨h1, h2⟩ := scanLines_eq_split saturatedInt content.data [] h
    simp only [parseBoxContent, parseBoxLoop_eq, h1, List.nil_append, List.filterMap_map,
      specBoxes]
    rw [← h2]
    rfl
  · simp only [specBoxes]
    rw [length_filterMap_eq]
    congr 1
    apply List.filter_congr
    intro x _
    exact specBoxLine_isSome saturatedInt (String.mk x)
  · intro line fld hf
    simp only [strings.Fields, List.mem_map] at hf
    obtain ⟨l, hl, rfl⟩ := hf
    exact fieldsAux_ne_nil _ _ l hl

/-- Witness of C9 as amended on a box file of two boxes, an empty line and a
short line, and on the field "-42". -/
theorem parseBoxContent_spec_witness :
    ((∀ l ∈ splitAux '\n' "T 10 20 30 40 0\r\n\nx 1 2\ne 31 -20 +45 4z 0\n".data [],
        byteLen l < MaxScanTokenSize) ∧
      decimalValue ((signBody "-42".data).takeWhile isDigit) < 2 ^ 63) ∧
    parseBoxContent "T 10 20 30 40 0\r\n\nx 1 2\ne 31 -20 +45 4z 0\n"
      = .ret (specBoxes saturatedInt "T 10 20 30 40 0\r\n\nx 1 2\ne 31 -20 +45 4z 0\n") none ∧
    specBoxes saturatedInt "T 10 20 30 40 0\r\n\nx 1 2\ne 31 -20 +45 4z 0\n"
      = [⟨'T', 10, 20, 30, 40, 0⟩, ⟨'e', 31, -20, 45, 0, 0⟩] ∧
    saturatedInt "-42" = specInt "-42" ∧ specInt "-42" = -42 :=
  ⟨⟨by decide, by decide⟩,
   (parseBoxContent_spec "T 10 20 30 40 0\r\n\nx 1 2\ne 31 -20 +45 4z 0\n" "-42").2.1 (by decide),
   by decide,
   (parseBoxContent_spec "T 10 20 30 40 0\r\n\nx 1 2\ne 31 -20 +45 4z 0\n" "-42").2.2.2.2
     (by decide),
   by decide⟩

/-- C10 (what the code does): the two version numbers are compared as strings,
not as numbers.  The banner of version 10.0.0 is turned down, because "10" sorts
before "3", and the banner of version 3.1.0 is let through, because "1" sorts
after "05"; 4.1.0 and 3.05.00 are accepted and 3.04.00 is rejected, as the
minimum 3.05 demands. -/
theorem checkVersion_compares_strings :
    checkVersionOutput "tesseract 10.0.0\n leptonica-1.84.1\n"
      = some (.new "tesseract version 10.0 is not supported (minimum 3.05 required)") ∧
    checkVersionOutput "tesseract 3.1.0\n" = none ∧
    checkVersionOutput "tesseract 4.1.0\n leptonica-1.79.0\n" = none ∧
    checkVersionOutput "tesseract 3.05.00\n" = none ∧
    checkVersionOutput "tesseract 3.04.00\n"
      = some (.new "tesseract version 3.04 is not supported (minimum 3.05 required)") ∧
    findVersion "tesseract 10.0.0".data = some ("10".data, "0".data) ∧
    strLt "10".data "3".data = true ∧ strLt "1".data "05".data = false := by
  refine ⟨by decide, by decide, by decide, by decide, by decide, by decide, by decide, by decide⟩

/-- C11: when `--list-langs` succeeds with output out, GetAvailableLanguages
returns exactly the lines after the first that are not empty, in their order,
a line ending at "\n" or at "\r\n"; the first line is left out, no entry is
empty, and the result is not empty when a non-empty line follows the first.
When the command fails it returns ErrTesseractNotFound. -/
theorem GetAvailableLanguages_spec (env : Env) (w : World) (out : String) :
    (cmdOutput (env.subprocess w.TesseractCmd ["--list-langs"] none) = .ok out →
      (GetAvailableLanguages env w).1 = .ok (specLanguages out)) ∧
    (specLanguages out).Sublist (((specLines out.data []).drop 1).map String.mk) ∧
    (∀ l ∈ specLanguages out, l ≠ "") ∧
    ((∃ line ∈ (specLines out.data []).drop 1, line ≠ []) → specLanguages out ≠ []) ∧
    ((∀ o, cmdOutput (env.subprocess w.TesseractCmd ["--list-langs"] none) ≠ .ok o) →
      (GetAvailableLanguages env w).1 = .error .ErrTesseractNotFound) := by
  refine ⟨?_, ?_, ?_, ?_, ?_⟩
  · intro h
    simp only [GetAvailableLanguages, h, parseLanguages_eq]
  · exact (List.filter_sublist _).map _
  · intro l hl
    simp only [specLanguages, List.mem_map, List.mem_filter, decide_eq_true_eq] at hl
    obtain ⟨x, ⟨-, hx⟩, rfl⟩ := hl
    intro h0
    exact hx (congrArg String.data h0)
  · rintro ⟨line, hmem, hne⟩ h0
    have : String.mk line ∈ specLanguages out := by
      simp only [specLanguages, List.mem_map, List.mem_filter, decide_eq_true_eq]
      exact ⟨line, ⟨hmem, hne⟩, rfl⟩
    rw [h0] at this
    exact List.not_mem_nil _ this
  · intro h
    cases hc : cmdOutput (env.subprocess w.TesseractCmd ["--list-langs"] none) with
    | ok o => exact absurd hc (h o)
    | exitError code stderr => simp only [GetAvailableLanguages, hc]
    | other msg => simp only [GetAvailableLanguages, hc]

/-- Witness of C11 on the output of an engine with eng and osd, written with
"\r\n", and on an engine that is not installed. -/
theorem GetAvailableLanguages_spec_witness :
    (cmdOutput (sampleEnv.subprocess sampleWorld.TesseractCmd ["--list-langs"] none)
        = .ok "List of available languages (2):\neng\nosd\n" ∧
      (∃ line ∈ (specLines "List of available languages (2):\r\neng\r\n\r\nosd\r\n".data []).drop 1,
        line ≠ []) ∧
      ∀ o, cmdOutput (noEngineEnv.subprocess sampleWorld.TesseractCmd ["--list-langs"] none)
        ≠ .ok o) ∧
    (GetAvailableLanguages sampleEnv sampleWorld).1
      = .ok (specLanguages "List of available languages (2):\neng\nosd\n") ∧
    specLanguages "List of available languages (2):\neng\nosd\n" = ["eng", "osd"] ∧
    parseLanguages "List of available languages (2):\r\neng\r\n\r\nosd\r\n" = ["eng", "osd"] ∧
    specLanguages "List of available languages (2):\r\neng\r\n\r\nosd\r\n" ≠ [] ∧
    (GetAvailableLanguages noEngineEnv sampleWorld).1 = .error .ErrTesseractNotFound :=
  ⟨⟨rfl, ⟨"eng".data, by decide, by decide⟩, fun o h => by cases h⟩,
   (GetAvailableLanguages_spec sampleEnv sampleWorld
      "List of available languages (2):\neng\nosd\n").1 rfl,
   by decide, by decide,
   (GetAvailableLanguages_spec sampleEnv sampleWorld
      "List of available languages (2):\r\neng\r\n\r\nosd\r\n").2.2.2.1
      ⟨"eng".data, by decide, by decide⟩,
   (GetAvailableLanguages_spec noEngineEnv sampleWorld "").2.2.2.2 (fun o h => by cases h)⟩

end Tesseract
